import Mathlib

/-!
Verification of the specification-resolution and request-construction engine
of an OpenAPI client (an API explorer UI).  The TypeScript source is shallowly
embedded: JSON values become an inductive `Json` type, JavaScript objects
become insertion-ordered association lists, and each source function becomes
a Lean function translated clause by clause.  External collaborators (the
JSON/JSON5/YAML parsers, `btoa`, the HTTP transport, wall-clock time) are
passed in as explicit parameters.
-/

namespace OpenapiClient

/-- JSON values.  JavaScript objects are modelled as insertion-ordered lists
of key/value pairs (JS objects preserve insertion order and `Object.entries`
iterates in that order). -/
inductive Json where
  | null : Json
  | bool (b : Bool) : Json
  | num (n : Int) : Json
  | str (s : String) : Json
  | arr (items : List Json) : Json
  | obj (fields : List (String × Json)) : Json

/-- The left-brace character, written via its code point. -/
def lbrace : Char := Char.ofNat 123

/-- The right-brace character, written via its code point. -/
def rbrace : Char := Char.ofNat 125

/-- The pipe character. -/
def pipeChar : Char := Char.ofNat 124

/-- The apostrophe character (an unreserved character of encodeURIComponent). -/
def aposChar : Char := Char.ofNat 39

/-- Lookup in a JS object: `o[key]`, `undefined` becomes `none`.
JS object keys are unique, so first-match lookup is exact. -/
def rlookup {α : Type} : List (String × α) → String → Option α
  | [], _ => none
  | (k, v) :: rest, key => if k = key then some v else rlookup rest key

/-- JS object assignment `o[key] = v`: updates an existing binding in place
(keeping its position, as JS objects do) or appends a new one. -/
def rset {α : Type} : List (String × α) → String → α → List (String × α)
  | [], key, v => [(key, v)]
  | (k, w) :: rest, key, v =>
    if k = key then (k, v) :: rest else (k, w) :: rset rest key v

/-- Object spread `\x7b...a, ...b\x7d`: every binding of `b` assigned over `a`
in order (later keys win). -/
def rmerge {α : Type} (a b : List (String × α)) : List (String × α) :=
  b.foldl (fun acc kv => rset acc kv.1 kv.2) a

/-- Whether a key is present in a JS object. -/
def hasKey {α : Type} (o : List (String × α)) (key : String) : Bool :=
  (rlookup o key).isSome

/-- Source `isRecord`: a non-null, non-array object. -/
def isRecordJ : Json → Bool
  | .obj _ => true
  | _ => false

/-- Source `isString` restricted to `Json`. -/
def isStringJ : Json → Bool
  | .str _ => true
  | _ => false

/-- JS truthiness of a JSON value (`null`, `false`, `0`, and the empty string
are falsy; arrays and objects are always truthy). -/
def truthy : Json → Bool
  | .null => false
  | .bool b => b
  | .num n => n != 0
  | .str s => s ≠ ""
  | .arr _ => true
  | .obj _ => true

/-- Truthiness of a possibly-absent value (`undefined` is falsy). -/
def truthyOpt : Option Json → Bool
  | none => false
  | some j => truthy j

/-- Property access `o.key` on a JSON value: `undefined` (`none`) when the
value is not an object or the key is absent. -/
def jget : Json → String → Option Json
  | .obj fields, key => rlookup fields key
  | _, _ => none

/-- Property access returning the value only when it is a string
(the source's `isString(x) ? x : ...` guards). -/
def jgetStr (j : Json) (key : String) : Option String :=
  match jget j key with
  | some (.str s) => some s
  | _ => none

/-- Property access returning the value only when it is a record
(the source's `isRecord(x) ? x : null` guards). -/
def jgetObj (j : Json) (key : String) : Option (List (String × Json)) :=
  match jget j key with
  | some (.obj fields) => some fields
  | _ => none

/-- Property access returning the value only when it is an array. -/
def jgetArr (j : Json) (key : String) : Option (List Json) :=
  match jget j key with
  | some (.arr xs) => some xs
  | _ => none

/-- Assignment `o[key] = v` lifted to `Json` objects (only ever applied to
objects in the source). -/
def jset : Json → String → Json → Json
  | .obj fields, key, v => .obj (rset fields key v)
  | j, _, _ => j

/-- Splitting a character list at every occurrence of a separator character,
matching the semantics of JS `String.prototype.split` with a one-character
separator (the empty string splits to `[""]`). -/
def splitOnChar (sep : Char) : List Char → List (List Char)
  | [] => [[]]
  | c :: rest =>
    if c = sep then [] :: splitOnChar sep rest
    else
      match splitOnChar sep rest with
      | s :: ss => (c :: s) :: ss
      | [] => [[c]]

/-- Whitespace class used by the JS `trim` in the header-template pipeline.
The model covers the ASCII whitespace characters; the source never feeds
non-ASCII whitespace through these helpers. -/
def isJsWs (c : Char) : Bool :=
  c = ' ' || c = Char.ofNat 9 || c = Char.ofNat 10 || c = Char.ofNat 13 ||
    c = Char.ofNat 11 || c = Char.ofNat 12

/-- JS `String.prototype.trim` on a character list. -/
def jsTrimChars (l : List Char) : List Char :=
  ((l.dropWhile isJsWs).reverse.dropWhile isJsWs).reverse

/-- JS `trim` on strings. -/
def jsTrimS (s : String) : String := String.mk (jsTrimChars s.data)

/-- ASCII lower-casing of one character (JS `toLowerCase` restricted to the
ASCII range the source compares against). -/
def charToLower (c : Char) : Char :=
  if 65 ≤ c.toNat ∧ c.toNat ≤ 90 then Char.ofNat (c.toNat + 32) else c

/-- JS `String.prototype.toLowerCase` (ASCII). -/
def jsToLower (s : String) : String := String.mk (s.data.map charToLower)

/-- JS `String.prototype.startsWith`. -/
def strStartsWith (s p : String) : Bool := p.data.isPrefixOf s.data

/-- JS `String.prototype.endsWith`. -/
def strEndsWith (s p : String) : Bool := p.data.reverse.isPrefixOf s.data.reverse

/-- `Number(token)` on an all-digit token (the only shape the source feeds
it): the numeric value of a non-empty digit string. -/
def strToNatQ (s : String) : Option Nat :=
  if !s.data.isEmpty && s.data.all Char.isDigit then
    some (s.data.foldl (fun n c => n * 10 + (c.toNat - 48)) 0)
  else none

/-- Unreserved characters of JS `encodeURIComponent`
(letters, digits, and `- _ . ! ~ *` , the apostrophe, and parentheses). -/
def isUnreservedURI (c : Char) : Bool :=
  c.isAlpha || c.isDigit || c = '-' || c = '_' || c = '.' || c = '!' ||
    c = '~' || c = '*' || c = aposChar || c = '(' || c = ')'

/-- UTF-8 bytes of a code point. -/
def utf8Bytes (c : Char) : List Nat :=
  let n := c.toNat
  if n < 128 then [n]
  else if n < 2048 then [192 + n / 64, 128 + n % 64]
  else if n < 65536 then [224 + n / 4096, 128 + (n / 64) % 64, 128 + n % 64]
  else [240 + n / 262144, 128 + (n / 4096) % 64, 128 + (n / 64) % 64, 128 + n % 64]

/-- Upper-case hexadecimal digit. -/
def hexUpper (n : Nat) : Char :=
  if n < 10 then Char.ofNat (48 + n) else Char.ofNat (55 + n)

/-- Percent-encoding of one byte. -/
def pctEncodeByte (b : Nat) : List Char :=
  ['%', hexUpper (b / 16), hexUpper (b % 16)]

/-- JS `encodeURIComponent` on a character list. -/
def encodeURIComponentChars (l : List Char) : List Char :=
  l.flatMap fun c =>
    if isUnreservedURI c then [c] else (utf8Bytes c).flatMap pctEncodeByte

/-- JS `encodeURIComponent` on strings. -/
def encodeURIComponent (s : String) : String :=
  String.mk (encodeURIComponentChars s.data)

/-- Replacement text for one `\x7bname\x7d` placeholder in `applyPathParams`:
the source computes `encodeURIComponent(params[key] ?? ` + the literal
placeholder `)`, so a missing parameter is re-emitted as the (percent-encoded)
placeholder itself. -/
def pathParamReplacement (params : List (String × String)) (key : List Char) : List Char :=
  encodeURIComponentChars
    (match rlookup params (String.mk key) with
     | some v => v.data
     | none => lbrace :: (key ++ [rbrace]))

/-- Scanner for the source regex replace
`path.replace(/\x7b([^\x7d]+)\x7d/g, ...)` of `applyPathParams`.
The mode is `none` outside a placeholder and `some acc` (accumulated content,
reversed) after an opening brace; a brace pair with empty content does not
match the regex and stays literal, and an unclosed brace run at the end of
the input stays literal. -/
def applyPathLoop (params : List (String × String)) :
    Option (List Char) → List Char → List Char
  | none, [] => []
  | some acc, [] => lbrace :: acc.reverse
  | none, c :: rest =>
    if c = lbrace then applyPathLoop params (some []) rest
    else c :: applyPathLoop params none rest
  | some acc, c :: rest =>
    if c = rbrace then
      if acc.isEmpty then lbrace :: rbrace :: applyPathLoop params none rest
      else pathParamReplacement params acc.reverse ++ applyPathLoop params none rest
    else applyPathLoop params (some (c :: acc)) rest

/-- Source `applyPathParams`: substitute `\x7bname\x7d` placeholders in a path
template, percent-encoding substituted values and re-emitting missing
parameters as percent-encoded placeholders. -/
def applyPathParams (path : String) (params : List (String × String)) : String :=
  String.mk (applyPathLoop params none path.data)

/-- Replacement value for one `\x7b\x7b var1 | var2 \x7d\x7d` occurrence in
`resolveHeaderTemplate`: the raw capture is split on the pipe, each candidate
trimmed, empty candidates dropped, and the first candidate with a defined,
non-empty variable value wins; with no such candidate, the occurrence is
replaced by the empty string. -/
def tplValue (vars : List (String × String)) (content : List Char) : List Char :=
  let candidates :=
    ((splitOnChar pipeChar content).map jsTrimChars).filter (fun c => !c.isEmpty)
  match candidates.find? (fun c =>
      match rlookup vars (String.mk c) with
      | some v => v != ""
      | none => false) with
  | some c => ((rlookup vars (String.mk c)).getD "").data
  | none => []

/-- Scanner for the source regex replace
`template.replace(/\x7b\x7b\s*([^\x7d]+)\s*\x7d\x7d/g, ...)` of
`resolveHeaderTemplate`.  A match needs a double open brace, at least one
non-`\x7d` character of content, and a double close brace starting at the
first `\x7d` after the content; on a failed candidate the scanner emits one
brace and retries from the next position, exactly like the JS regex engine.
The `fuel` argument makes the recursion structural; every call site passes
at least the length of the remaining input, which the scanner never needs
to exceed. -/
def resolveTplF (vars : List (String × String)) : Nat → List Char → List Char
  | 0, l => l
  | _ + 1, [] => []
  | fuel + 1, c1 :: rest1 =>
    if c1 = lbrace then
      match rest1 with
      | [] => [c1]
      | c2 :: rest2 =>
        if c2 = lbrace then
          let content := rest2.takeWhile (fun ch => ch ≠ rbrace)
          match rest2.dropWhile (fun ch => ch ≠ rbrace) with
          | _ :: b2 :: after =>
            if b2 = rbrace ∧ ¬content.isEmpty then
              tplValue vars content ++ resolveTplF vars fuel after
            else lbrace :: resolveTplF vars fuel (c2 :: rest2)
          | _ => lbrace :: resolveTplF vars fuel (c2 :: rest2)
        else c1 :: resolveTplF vars fuel rest1
    else c1 :: resolveTplF vars fuel rest1

/-- The template scanner run with sufficient fuel. -/
def resolveTemplateChars (vars : List (String × String)) (l : List Char) : List Char :=
  resolveTplF vars l.length l

/-- Source `resolveHeaderTemplate`: substitute every
`\x7b\x7b var1 | var2 \x7d\x7d` occurrence in a template against a
header-variable table. -/
def resolveHeaderTemplate (template : String) (vars : List (String × String)) : String :=
  String.mk (resolveTemplateChars vars template.data)

/-- Joining candidate names with a pipe (used to state the C10 theorem about
a template occurrence `\x7b\x7bvar1|var2|...\x7d\x7d`). -/
def joinPipe : List (List Char) → List Char
  | [] => []
  | [c] => c
  | c :: cs => c ++ pipeChar :: joinPipe cs

/-- The first candidate variable that is defined and non-empty, as specified
for one template occurrence; empty when no candidate matches. -/
def firstCandidateValue (vars : List (String × String)) (cs : List (List Char)) : List Char :=
  match cs.find? (fun c =>
      match rlookup vars (String.mk c) with
      | some v => v != ""
      | none => false) with
  | some c => ((rlookup vars (String.mk c)).getD "").data
  | none => []

/-- A string in single quotes (used to spell the source's error messages). -/
def q (s : String) : String :=
  String.singleton aposChar ++ s ++ String.singleton aposChar

/-- Source error message for a non-object parse result. -/
def notObjectMsg : String := "Invalid OpenAPI spec: must be an object."

/-- Source error message for a missing version field. -/
def missingVersionMsg : String :=
  "Invalid OpenAPI spec: missing " ++ q "openapi" ++ " or " ++ q "swagger" ++ " version."

/-- Source error message for missing info/paths. -/
def missingInfoPathsMsg : String :=
  "Invalid OpenAPI spec: missing " ++ q "info" ++ " or " ++ q "paths" ++ "."

/-- JS `typeof x === "object"` on a JSON value (true for null, arrays and
objects). -/
def jsTypeofObject : Json → Bool
  | .null => true
  | .arr _ => true
  | .obj _ => true
  | _ => false

/-- JS `Array.isArray`. -/
def isArrayJ : Json → Bool
  | .arr _ => true
  | _ => false

/-- Source `parseMetadataText`: try strict JSON, then JSON5, then YAML, in
that order; when all three throw, rethrow the last (YAML) message; then
validate that the result is a non-array object carrying a truthy
`openapi`/`swagger` version and truthy `info` and `paths`.  The three
parsers are external libraries and are passed in as parameters. -/
def parseMetadataText (jsonParse json5Parse yamlParse : String → Except String Json)
    (raw : String) : Except String Json :=
  let parsed : Except String Json :=
    match jsonParse raw with
    | .ok v => .ok v
    | .error _ =>
      match json5Parse raw with
      | .ok v => .ok v
      | .error _ =>
        match yamlParse raw with
        | .ok v => .ok v
        | .error msg => .error msg
  match parsed with
  | .error msg => .error msg
  | .ok p =>
    if !truthy p || !jsTypeofObject p || isArrayJ p then .error notObjectMsg
    else if !truthyOpt (jget p "openapi") && !truthyOpt (jget p "swagger") then
      .error missingVersionMsg
    else if !truthyOpt (jget p "info") || !truthyOpt (jget p "paths") then
      .error missingInfoPathsMsg
    else .ok p

/-- Source `getSchemaFromRef`: guarded navigation that always looks the last
`/`-segment of the ref up in `components.schemas`, whatever group the ref
names; returns null when the ref or the spec is falsy, when
`components.schemas` is not a record, or when the target is not a record. -/
def getSchemaFromRef (spec : Option Json) (ref : Option String) : Option Json :=
  match ref, spec with
  | some r, some sp =>
    if r = "" ∨ truthy sp = false then none
    else
      match jgetObj sp "components" with
      | none => none
      | some components =>
        match rlookup components "schemas" with
        | some (.obj schemas) =>
          let name := ((splitOnChar '/' r.data).map String.mk).getLastD ""
          match rlookup schemas name with
          | some (.obj fields) => some (.obj fields)
          | _ => none
        | _ => none
  | _, _ => none

/-- Source `getComponentFromRef`: destructures the ref's `/`-segments as
`[, , group, name]` (third and fourth segments) and navigates
`components[group][name]`; returns null when the ref or spec is falsy, the
spec or `components` is not a record, group or name is missing/empty, or
the target is not a record. -/
def getComponentFromRef (spec : Option Json) (ref : Option String) : Option Json :=
  match ref, spec with
  | some r, some sp =>
    if r = "" ∨ truthy sp = false then none
    else if isRecordJ sp = false then none
    else
      match jgetObj sp "components" with
      | none => none
      | some components =>
        let parts := (splitOnChar '/' r.data).map String.mk
        let group := parts.getD 2 ""
        let name := parts.getD 3 ""
        if group = "" ∨ name = "" then none
        else
          match rlookup components group with
          | some (.obj groupObj) =>
            match rlookup groupObj name with
            | some (.obj fields) => some (.obj fields)
            | _ => none
          | _ => none
  | _, _ => none

mutual

/-- Structural value equality on JSON values.  It models the `SameValueZero`
comparison of the JS `Set` used to deduplicate `required` arrays; for the
string elements `required` arrays hold, structural and JS equality agree. -/
def Json.beq : Json → Json → Bool
  | .null, .null => true
  | .bool a, .bool b => a == b
  | .num a, .num b => a == b
  | .str a, .str b => a == b
  | .arr a, .arr b => Json.beqList a b
  | .obj a, .obj b => Json.beqFields a b
  | _, _ => false

/-- Elementwise `Json.beq` on arrays. -/
def Json.beqList : List Json → List Json → Bool
  | [], [] => true
  | a :: as_, b :: bs => Json.beq a b && Json.beqList as_ bs
  | _, _ => false

/-- Elementwise `Json.beq` on object fields. -/
def Json.beqFields : List (String × Json) → List (String × Json) → Bool
  | [], [] => true
  | (k1, v1) :: as_, (k2, v2) :: bs => k1 == k2 && Json.beq v1 v2 && Json.beqFields as_ bs
  | _, _ => false

end

/-- `Array.from(new Set(l))`: first occurrence of each value, in order. -/
def dedupJson (l : List Json) : List Json :=
  l.foldl (fun acc x => if acc.any (fun y => Json.beq y x) then acc else acc ++ [x]) []

/-- The source's fixed resolution-depth ceiling. -/
def MAX_SCHEMA_RESOLUTION_DEPTH : Nat := 6

/-- The source's bounded response-history length. -/
def MAX_RESPONSE_HISTORY : Nat := 10

/-- A possibly-null resolution result back to a JSON value, as it is stored
into arrays/objects by the source (`null` for a null result). -/
def optToJson : Option Json → Json
  | some j => j
  | none => .null

/-- The fields of an object value (empty for anything else). -/
def fieldsOf : Json → List (String × Json)
  | .obj fs => fs
  | _ => []

/-- Source `resolveSchema`, in fuel form: the source increments a `depth`
counter on every recursive descent and returns the schema unchanged once
`depth > MAX_SCHEMA_RESOLUTION_DEPTH`; here `fuel` stands for
`MAX_SCHEMA_RESOLUTION_DEPTH + 1 - depth`, so fuel 0 is exactly the
depth-ceiling exit and every recursive descent spends one unit.  A `$ref`
already in the visited set returns the node with a `circularRef: true`
marker; an unresolvable `$ref` returns the node unchanged; `allOf` branches
are resolved and merged (properties unioned, required unioned and
deduplicated); `oneOf`/`anyOf` branches are resolved in place; `properties`
and `items` are resolved recursively. -/
def resolveSchemaF (spec : Option Json) : Nat → Option Json → List String → Option Json
  | 0, schema, _ => schema
  | _ + 1, none, _ => none
  | fuel + 1, some schema, seen =>
    match jgetStr schema "$ref" with
    | some r =>
      if seen.contains r then some (jset schema "circularRef" (.bool true))
      else
        match getSchemaFromRef spec (some r) with
        | none => some schema
        | some resolved => resolveSchemaF spec fuel (some resolved) (r :: seen)
    | none =>
      match jgetArr schema "allOf" with
      | some (item :: items) =>
        let merged := (item :: items).foldl (fun acc it =>
          let resolved := resolveSchemaF spec fuel
            (if isRecordJ it then some it else none) seen
          let resolvedRecord := fieldsOf (optToJson resolved)
          let accProperties := match rlookup acc "properties" with
            | some (.obj fs) => fs
            | _ => []
          let resolvedProperties := match rlookup resolvedRecord "properties" with
            | some (.obj fs) => fs
            | _ => []
          let accRequired := match rlookup acc "required" with
            | some (.arr xs) => xs
            | _ => []
          let resolvedRequired := match rlookup resolvedRecord "required" with
            | some (.arr xs) => xs
            | _ => []
          rset
            (rset (rmerge acc resolvedRecord) "properties"
              (.obj (rmerge accProperties resolvedProperties)))
            "required" (.arr (dedupJson (accRequired ++ resolvedRequired)))) []
        some (.obj (rmerge (fieldsOf schema) merged))
      | _ =>
      match jgetArr schema "oneOf" with
      | some (x :: xs) =>
        some (jset schema "oneOf" (.arr ((x :: xs).map fun it =>
          optToJson (resolveSchemaF spec fuel
            (if isRecordJ it then some it else none) seen))))
      | _ =>
      match jgetArr schema "anyOf" with
      | some (x :: xs) =>
        some (jset schema "anyOf" (.arr ((x :: xs).map fun it =>
          optToJson (resolveSchemaF spec fuel
            (if isRecordJ it then some it else none) seen))))
      | _ =>
      match jgetObj schema "properties" with
      | some props =>
        some (jset schema "properties" (.obj (props.map fun kv =>
          (kv.1, optToJson (resolveSchemaF spec fuel
            (if isRecordJ kv.2 then some kv.2 else none) seen)))))
      | none =>
      match jgetObj schema "items" with
      | some itemsFields =>
        some (jset schema "items"
          (optToJson (resolveSchemaF spec fuel (some (.obj itemsFields)) seen)))
      | none => some schema

/-- Source `resolveSchema` with the source's depth-counter interface. -/
def resolveSchema (spec : Option Json) (schema : Option Json)
    (seen : List String) (depth : Nat) : Option Json :=
  resolveSchemaF spec (MAX_SCHEMA_RESOLUTION_DEPTH + 1 - depth) schema seen

/-- Source `buildDefaultFromSchema`, in the same fuel form as
`resolveSchemaF` (`fuel = MAX_SCHEMA_RESOLUTION_DEPTH + 1 - depth`); `now`
stands for `new Date().toISOString()`.  Precedence: `$ref`, `allOf`,
`oneOf`/`anyOf` first branch, explicit `default`, first `enum` value, array
(single-element array of the item default only when that default is a
record, else an empty array), object/properties, then scalar defaults. -/
def buildDefaultF (spec : Option Json) (now : String) : Nat → Option Json → Json
  | 0, _ => .obj []
  | _ + 1, none => .obj []
  | fuel + 1, some schema =>
    match jgetStr schema "$ref" with
    | some r => buildDefaultF spec now fuel (getSchemaFromRef spec (some r))
    | none =>
      match jgetArr schema "allOf" with
      | some (x :: xs) =>
        .obj ((x :: xs).foldl (fun acc it =>
          let built := buildDefaultF spec now fuel
            (if isRecordJ it then some it else none)
          rmerge acc (fieldsOf built)) [])
      | _ =>
      match jgetArr schema "oneOf" with
      | some (x :: _) =>
        buildDefaultF spec now fuel (if isRecordJ x then some x else none)
      | _ =>
      match jgetArr schema "anyOf" with
      | some (x :: _) =>
        buildDefaultF spec now fuel (if isRecordJ x then some x else none)
      | _ =>
      match jget schema "default" with
      | some d => d
      | none =>
      match jgetArr schema "enum" with
      | some (e :: _) => e
      | _ =>
      if jgetStr schema "type" = some "array" then
        let item := match jgetObj schema "items" with
          | some fs => buildDefaultF spec now fuel (some (.obj fs))
          | none => .obj []
        match item with
        | .obj fs => .arr [.obj fs]
        | _ => .arr []
      else if jgetStr schema "type" = some "object" || (jgetObj schema "properties").isSome then
        let properties := (jgetObj schema "properties").getD []
        .obj (properties.foldl (fun acc kv =>
          rset acc kv.1 (buildDefaultF spec now fuel
            (if isRecordJ kv.2 then some kv.2 else none))) [])
      else if jgetStr schema "type" = some "boolean" then .bool false
      else if jgetStr schema "type" = some "integer" || jgetStr schema "type" = some "number" then
        .num 0
      else if jgetStr schema "format" = some "date-time" then .str now
      else .str "string"

/-- Source `buildDefaultFromSchema` with the source's depth-counter
interface. -/
def buildDefaultFromSchema (spec : Option Json) (now : String)
    (schema : Option Json) (depth : Nat) : Json :=
  buildDefaultF spec now (MAX_SCHEMA_RESOLUTION_DEPTH + 1 - depth) schema

mutual

/-- JS `String(x)` on a JSON value (arrays join their elements with commas;
objects print as `[object Object]`; the source only ever feeds strings
through this conversion in practice). -/
def jsToString : Json → String
  | .null => "null"
  | .bool b => if b then "true" else "false"
  | .num n => toString n
  | .str s => s
  | .arr xs => String.intercalate "," (jsToStringList xs)
  | .obj _ => "[object Object]"

/-- Elementwise `jsToString`. -/
def jsToStringList : List Json → List String
  | [] => []
  | x :: xs => jsToString x :: jsToStringList xs

end

/-- Source `securitySchemes` getter: every record entry of
`spec.components.securitySchemes`, in declaration order. -/
def securitySchemes (spec : Option Json) : List (String × Json) :=
  match spec with
  | none => []
  | some sp =>
    if truthy sp = false then []
    else if isRecordJ sp = false then []
    else
      match jgetObj sp "components" with
      | none => []
      | some components =>
        match rlookup components "securitySchemes" with
        | some (.obj ss) => ss.filter (fun kv => isRecordJ kv.2)
        | _ => []

/-- The result of the security compiler: header and query contributions plus
the collected cookie fragments and the `withCredentials` flag. -/
structure SecurityPayload where
  headers : List (String × String)
  queryParams : List (String × String)
  cookies : List String
  useCookies : Bool

/-- A credential field of a stored security value (`''` unless the field is
a string), template-substituted against the header variables. -/
def securityValueField (value : Json) (field : String)
    (hvars : List (String × String)) : String :=
  resolveHeaderTemplate ((jgetStr value field).getD "") hvars

/-- `String(scheme.scheme ?? '').toLowerCase()`. -/
def schemeSchemeStr (scheme : Json) : String :=
  jsToLower
    (match jget scheme "scheme" with
     | none => ""
     | some .null => ""
     | some j => jsToString j)

/-- The credential material consulted by `buildSecurityPayload` for one
scheme: `securityValues[name] ?? globalSecurityValues[name] ?? \x7b\x7d`. -/
def storedSecurityValue (secVals gsecVals : List (String × Json))
    (name : String) : Json :=
  match rlookup secVals name with
  | some v => v
  | none =>
    match rlookup gsecVals name with
    | some v => v
    | none => .obj []

/-- One iteration of the source `buildSecurityPayload` loop: route one
declared scheme's stored credential into the payload by scheme type and
declared location.  `btoa` is the browser's base64 encoder (external; `none`
models a thrown encoding error, which the source silently swallows).  The
`document.cookie` browser write of the cookie branch is an external side
effect outside the returned payload and is not modelled. -/
def applySecurityScheme (btoa : String → Option String)
    (hvars : List (String × String)) (secVals gsecVals : List (String × Json))
    (st : SecurityPayload) (entry : String × Json) : SecurityPayload :=
  let scheme := entry.2
  let value : Json := storedSecurityValue secVals gsecVals entry.1
  if truthy scheme = false then st
  else if jgetStr scheme "type" = some "apiKey" then
    let keyValue := securityValueField value "value" hvars
    if keyValue = "" then st
    else
      let schemeName := (jgetStr scheme "name").getD ""
      if schemeName = "" then st
      else if jgetStr scheme "in" = some "header" then
        { st with headers := rset st.headers schemeName keyValue }
      else if jgetStr scheme "in" = some "query" then
        { st with queryParams := rset st.queryParams schemeName keyValue }
      else if jgetStr scheme "in" = some "cookie" then
        { st with
          cookies := st.cookies ++ [schemeName ++ "=" ++ encodeURIComponent keyValue],
          useCookies := true }
      else st
  else if jgetStr scheme "type" = some "http" then
    let schemeType := schemeSchemeStr scheme
    if schemeType = "basic" then
      let username := securityValueField value "username" hvars
      let password := securityValueField value "password" hvars
      let raw := securityValueField value "value" hvars
      if raw ≠ "" then
        { st with headers := (rset st.headers "Authorization"
            (if strStartsWith raw "Basic " then raw else "Basic " ++ raw)) }
      else if username ≠ "" ∨ password ≠ "" then
        match btoa (username ++ ":" ++ password) with
        | some encoded =>
          { st with headers := rset st.headers "Authorization" ("Basic " ++ encoded) }
        | none => st
      else st
    else if schemeType = "bearer" then
      let token := securityValueField value "value" hvars
      if token = "" then st
      else
        { st with headers := (rset st.headers "Authorization"
            (if strStartsWith (jsToLower token) "bearer " then token else "Bearer " ++ token)) }
    else
      let token := securityValueField value "value" hvars
      if token = "" then st
      else
        { st with headers := rset st.headers "Authorization" (schemeType ++ " " ++ token) }
  else if jgetStr scheme "type" = some "oauth2" ∨ jgetStr scheme "type" = some "openIdConnect" then
    let token := securityValueField value "value" hvars
    if token = "" then st
    else
      { st with headers := (rset st.headers "Authorization"
          (if strStartsWith token "Bearer " then token else "Bearer " ++ token)) }
  else st

/-- Source `buildSecurityPayload`: iterate every declared scheme of
`securitySchemes` (the operation's security requirements are never
consulted), then join the collected cookie fragments into one `Cookie`
header. -/
def buildSecurityPayload (btoa : String → Option String)
    (schemes : List (String × Json)) (secVals gsecVals : List (String × Json))
    (hvars : List (String × String)) : SecurityPayload :=
  let st := schemes.foldl (applySecurityScheme btoa hvars secVals gsecVals)
    ⟨[], [], [], false⟩
  if st.cookies ≠ [] then
    { st with headers := rset st.headers "Cookie" (String.intercalate "; " st.cookies) }
  else st

/-- The `effectiveQueryParams` merge of `sendRequest`: a security query
contribution is taken only where the user's value is undefined or empty. -/
def mergeSecurityQueryParams (userQuery secQuery : List (String × String)) :
    List (String × String) :=
  secQuery.foldl (fun acc kv =>
    match rlookup acc kv.1 with
    | none => rset acc kv.1 kv.2
    | some v => if v = "" then rset acc kv.1 kv.2 else acc) userQuery

/-- The `requestHeaders` base merge of `sendRequest`: global headers
overlaid with the non-empty per-operation header params. -/
def baseRequestHeaders (globalHeaders headerParams : List (String × String)) :
    List (String × String) :=
  rmerge globalHeaders (headerParams.filter (fun kv => kv.2 ≠ ""))

/-- The security-header merge of `sendRequest`: a security header fills a
gap (undefined or empty), and a security `Cookie` contribution is appended
to an already-present non-empty `Cookie` header with `; `; any other
already-set non-empty header wins. -/
def applySecurityHeaders (reqHeaders secHeaders : List (String × String)) :
    List (String × String) :=
  secHeaders.foldl (fun acc kv =>
    match rlookup acc kv.1 with
    | none => rset acc kv.1 kv.2
    | some v =>
      if v = "" then rset acc kv.1 kv.2
      else if jsToLower kv.1 = "cookie" then rset acc kv.1 (v ++ "; " ++ kv.2)
      else acc) reqHeaders

/-- Form-urlencoded escaping of one character (the serializer of
`URLSearchParams`: alphanumerics and `* - . _` stay, space becomes `+`,
everything else is percent-encoded UTF-8). -/
def formEncodeChar (c : Char) : List Char :=
  if c = ' ' then ['+']
  else if c.isAlpha || c.isDigit || c = '*' || c = '-' || c = '.' || c = '_' then [c]
  else (utf8Bytes c).flatMap pctEncodeByte

/-- Form-urlencoded escaping of a string. -/
def formEncode (s : String) : String :=
  String.mk (s.data.flatMap formEncodeChar)

/-- Source `buildQueryString`: drop empty values, serialize the rest as
`URLSearchParams` does, empty string when nothing remains. -/
def buildQueryString (params : List (String × String)) : String :=
  let entries := params.filter (fun kv => kv.2 ≠ "")
  if entries.isEmpty then ""
  else String.intercalate "&" (entries.map (fun kv => formEncode kv.1 ++ "=" ++ formEncode kv.2))

/-- Source `isJsonContentType`: a missing/empty content type counts as JSON;
otherwise `application/json`, any `+json` suffix, or any `json` substring. -/
def isInfixChars (needle : List Char) : List Char → Bool
  | [] => needle.isEmpty
  | c :: t => needle.isPrefixOf (c :: t) || isInfixChars needle t

/-- JS `String.prototype.includes`. -/
def strIncludes (hay needle : String) : Bool :=
  isInfixChars needle.data hay.data

/-- Source `isJsonContentType`. -/
def isJsonContentType (ct : Option String) : Bool :=
  match ct with
  | none => true
  | some c =>
    if c = "" then true
    else c = "application/json" || strEndsWith c "+json" || strIncludes c "json"

/-- The linefeed character. -/
def lfChar : Char := Char.ofNat 10

/-- The carriage-return character. -/
def crChar : Char := Char.ofNat 13

/-- Strip one trailing carriage return (the `\r?` of the source's
`split(/\r?\n/)`). -/
def stripTrailingCR (l : List Char) : List Char :=
  match l.reverse with
  | c :: rest => if c = crChar then rest.reverse else l
  | [] => l

/-- Index of the first occurrence of a character (JS `indexOf`). -/
def idxOfChar (target : Char) : List Char → Option Nat
  | [] => none
  | c :: rest =>
    if c = target then some 0
    else
      match idxOfChar target rest with
      | some i => some (i + 1)
      | none => none

/-- Source `parseKeyValueLines`: split the body into lines, trim and drop
empty lines, then split each line at its first `=` (a line with none maps
to the empty value; an empty key after trimming is dropped). -/
def parseKeyValueLines (body : String) : List (String × String) :=
  let lines := (((splitOnChar lfChar body.data).map stripTrailingCR).map jsTrimChars).filter
    (fun l => !l.isEmpty)
  lines.foldl (fun acc line =>
    match idxOfChar '=' line with
    | none => rset acc (String.mk line) ""
    | some i =>
      let key := String.mk (jsTrimChars (line.take i))
      let value := String.mk (jsTrimChars (line.drop (i + 1)))
      if key ≠ "" then rset acc key value else acc) []

/-- Source `parseBodyToObject`: lenient-parse the body (the JSON5 parser is
external and passed in); a non-array object is returned as is, any other
parse result is wrapped as `\x7bvalue: parsed\x7d`; a parse throw
propagates. -/
def parseBodyToObject (json5Parse : String → Except String Json) (body : String) :
    Except String (List (String × Json)) :=
  match json5Parse body with
  | .error e => .error e
  | .ok (.obj fs) => .ok fs
  | .ok j => .ok [("value", j)]

/-- Source `HttpResponse`: outcome of the most recent send. -/
structure HttpResponse where
  status : Option Nat := none
  headers : Option String := none
  body : Option String := none
  error : Option String := none
deriving Repr, DecidableEq

/-- Source `ResponseHistoryItem`. -/
structure ResponseHistoryItem where
  id : String
  timestamp : String
  key : String
  method : String
  path : String
  url : String
  pathParams : List (String × String)
  queryParams : List (String × String)
  headerParams : List (String × String)
  requestBody : String
  response : HttpResponse
deriving Repr, DecidableEq

/-- Source `HeaderMappingRule` (`\x7bpath, responsePath, variable\x7d`; the
`variable` field is renamed `varName`, `variable` being a Lean keyword). -/
structure HeaderMappingRule where
  path : String
  responsePath : String
  varName : String

/-- The selected API (`\x7bkey, method, path\x7d` of `ApiListItem`). -/
structure ApiListItem where
  key : String
  method : String
  path : String

/-- The slice of the `ApiStore` state that `sendRequest` reads and
writes. -/
structure SendState where
  selectedApi : Option ApiListItem
  spec : Option Json
  pathParams : List (String × String)
  queryParams : List (String × String)
  headerParams : List (String × String)
  globalHeaders : List (String × String)
  headerVariables : List (String × String)
  headerDraft : List (String × String)
  headerMappingDraft : List HeaderMappingRule
  requestBody : String
  requestContentType : Option String
  securityValues : List (String × Json)
  globalSecurityValues : List (String × Json)
  currentSpecKey : String
  responseHistoryBySpec : List (String × List ResponseHistoryItem)
  responseHistory : List ResponseHistoryItem
  response : HttpResponse

/-- The history key of `pushResponseHistory`: `currentSpecKey || 'default'`. -/
def historySpecKey (st : SendState) : String :=
  if st.currentSpecKey = "" then "default" else st.currentSpecKey

/-- Source `pushResponseHistory`: prepend the entry to the current spec's
bounded history (`slice(0, MAX_RESPONSE_HISTORY)`), store it back under the
spec key (`currentSpecKey || 'default'`), and mirror it into
`responseHistory`. -/
def pushResponseHistory (st : SendState) (entry : ResponseHistoryItem) : SendState :=
  let key := historySpecKey st
  let current := (rlookup st.responseHistoryBySpec key).getD []
  let nextHistory := (entry :: current).take MAX_RESPONSE_HISTORY
  { st with
    responseHistoryBySpec := rset st.responseHistoryBySpec key nextHistory,
    responseHistory := nextHistory }

/-- Source `createResponseHistory` (`Date.now()`-based id and ISO timestamp
are externals, passed in as `idStr`/`now`). -/
def createResponseHistory (st : SendState) (idStr now : String)
    (response : HttpResponse) (requestBody : String) : ResponseHistoryItem :=
  let path := match st.selectedApi with | some a => a.path | none => ""
  let method := match st.selectedApi with | some a => a.method | none => ""
  let resolvedPath := if path = "" then "" else applyPathParams path st.pathParams
  let query := buildQueryString st.queryParams
  let url := if query = "" then resolvedPath else resolvedPath ++ "?" ++ query
  { id := idStr
    timestamp := now
    key := match st.selectedApi with | some a => a.key | none => ""
    method := method
    path := path
    url := url
    pathParams := st.pathParams
    queryParams := st.queryParams
    headerParams := st.headerParams
    requestBody := requestBody
    response := response }

/-- Source `tokenizePath`: trim, strip a leading `$`/`$.`, split on dots and
brackets, drop empties. -/
def stripDollar (l : List Char) : List Char :=
  match l with
  | c :: rest =>
    if c = '$' then
      match rest with
      | d :: rest2 => if d = '.' then rest2 else rest
      | [] => []
    else l
  | [] => l

/-- Splitting on any character satisfying a predicate (JS split on a
character-class regex). -/
def splitOnPred (p : Char → Bool) : List Char → List (List Char)
  | [] => [[]]
  | c :: rest =>
    if p c then [] :: splitOnPred p rest
    else
      match splitOnPred p rest with
      | s :: ss => (c :: s) :: ss
      | [] => [[c]]

/-- Source `tokenizePath`. -/
def tokenizePath (path : String) : List String :=
  if path = "" then []
  else
    let normalized := stripDollar (jsTrimChars path.data)
    ((splitOnChar '.' normalized).flatMap (fun seg =>
      (splitOnPred (fun c => c = '[' || c = ']') seg).filter
        (fun t => !t.isEmpty))).map String.mk

/-- Source `getValueByPath`: walk the tokens, numeric tokens index arrays,
other tokens index non-array objects, anything else degrades to
undefined. -/
def getValueByPath (data : Json) (path : String) : Option Json :=
  let tokens := tokenizePath path
  if tokens.isEmpty then none
  else
    tokens.foldl (fun acc token =>
      match acc with
      | none => none
      | some .null => none
      | some a =>
        if !token.isEmpty && token.data.all Char.isDigit then
          match a with
          | .arr xs => xs.get? ((strToNatQ token).getD 0)
          | _ => none
        else
          match a with
          | .obj fields => rlookup fields token
          | _ => none) (some data)

/-- Source `buildHeadersFromDraft`: trim draft keys, drop empty ones, and
template-substitute every draft value against the header variables. -/
def buildHeadersFromDraft (headers : List (String × String))
    (headerVariables : List (String × String)) : List (String × String) :=
  headers.foldl (fun acc kv =>
    let trimmedKey := jsTrimS kv.1
    if trimmedKey = "" then acc
    else rset acc trimmedKey (resolveHeaderTemplate kv.2 headerVariables)) []

/-- Source `applyHeaderMappings`: for each rule whose `path` matches the
selected API's path, extract `responsePath` from the response JSON into the
header-variable table, and on any update rebuild the global headers from
the header draft.  `stringify` is the external `JSON.stringify`. -/
def applyHeaderMappings (stringify : Json → String) (st : SendState)
    (responseData : Json) : SendState :=
  let apiPath := match st.selectedApi with | some a => jsTrimS a.path | none => ""
  if apiPath = "" ∨ st.headerMappingDraft.length = 0 then st
  else
    let folded := st.headerMappingDraft.foldl (fun acc rule =>
      let path := jsTrimS rule.path
      let responsePath := jsTrimS rule.responsePath
      let varName := jsTrimS rule.varName
      if path = "" ∨ responsePath = "" ∨ varName = "" then acc
      else if path ≠ apiPath then acc
      else
        match getValueByPath responseData responsePath with
        | none => acc
        | some .null => acc
        | some v =>
          (rset acc.1 varName (match v with | .str s => s | j => stringify j), true))
      (st.headerVariables, false)
    if folded.2 then
      { st with
        headerVariables := folded.1,
        globalHeaders := buildHeadersFromDraft st.headerDraft folded.1 }
    else st

/-- The body slot of a transport request descriptor. -/
inductive RequestBodyData where
  | noData : RequestBodyData
  | json (j : Json) : RequestBodyData
  | form (fields : List (String × String)) : RequestBodyData
  | urlencoded (entries : List (String × String)) : RequestBodyData
  | text (s : String) : RequestBodyData

/-- The request descriptor handed to the transport collaborator. -/
structure RequestConfig where
  method : String
  url : String
  data : RequestBodyData
  headers : Option (List (String × String))
  withCredentials : Bool

/-- The transport collaborator's success result. -/
structure TransportResult where
  data : Json
  headers : List (String × String)
  status : Nat

/-- Response headers as the JSON object the source stringifies. -/
def headersToJson (hs : List (String × String)) : Json :=
  .obj (hs.map fun kv => (kv.1, Json.str kv.2))

/-- The outcome of the body-building phase of `sendRequest`. -/
inductive SendOutcome where
  | noApi : SendOutcome
  | bodyError (resolvedBody msg : String) : SendOutcome
  | send (config : RequestConfig) (resolvedBody : String) : SendOutcome

/-- The pure request-building phase of the source `sendRequest` (everything
before the `try` around the transport call): security payload, query and
header merges, content-type defaulting, body template substitution and
content-type-specific body encoding.  A JSON-family body that fails the
lenient parse yields `bodyError` carrying the parser's message.  `Blob`
values cannot arise from the lenient parser and the corresponding multipart
branch is unreachable. -/
def sendRequestBuild (st : SendState) (json5Parse : String → Except String Json)
    (stringify : Json → String) (btoa : String → Option String) : SendOutcome :=
  match st.selectedApi with
  | none => .noApi
  | some api =>
    let securityPayload := buildSecurityPayload btoa (securitySchemes st.spec)
      st.securityValues st.globalSecurityValues st.headerVariables
    let effectiveQueryParams := mergeSecurityQueryParams st.queryParams
      securityPayload.queryParams
    let path := applyPathParams api.path st.pathParams
    let query := buildQueryString effectiveQueryParams
    let url := if query = "" then path else path ++ "?" ++ query
    let method := jsToLower api.method
    let requestHeaders0 := applySecurityHeaders
      (baseRequestHeaders st.globalHeaders st.headerParams) securityPayload.headers
    let hasContentTypeHeader := requestHeaders0.any (fun kv => jsToLower kv.1 = "content-type")
    let requestContentType := st.requestContentType
    let requestHeaders1 :=
      match requestContentType with
      | some ct =>
        if ct ≠ "" ∧ !hasContentTypeHeader then rset requestHeaders0 "Content-Type" ct
        else requestHeaders0
      | none => requestHeaders0
    let resolvedRequestBody := resolveHeaderTemplate st.requestBody st.headerVariables
    let bodyResult : Except String (RequestBodyData × List (String × String)) :=
      if jsTrimS resolvedRequestBody ≠ "" then
        if isJsonContentType requestContentType then
          match json5Parse resolvedRequestBody with
          | .error msg => .error ("Invalid JSON: " ++ msg)
          | .ok j => .ok (.json j, requestHeaders1)
        else if requestContentType = some "multipart/form-data" then
          let payload : List (String × Json) :=
            match parseBodyToObject json5Parse resolvedRequestBody with
            | .ok fs => fs
            | .error _ =>
              (parseKeyValueLines resolvedRequestBody).map fun kv => (kv.1, Json.str kv.2)
          let formData : List (String × String) := payload.foldl (fun acc kv =>
            match kv.2 with
            | .arr items =>
              acc ++ items.map fun it =>
                (kv.1, match it with | .str s => s | j => stringify j)
            | .null => acc
            | .str s => acc ++ [(kv.1, s)]
            | j => acc ++ [(kv.1, stringify j)]) []
          .ok (.form formData, requestHeaders1.filter (fun kv => kv.1 ≠ "Content-Type"))
        else if requestContentType = some "application/x-www-form-urlencoded" then
          let payload : List (String × Json) :=
            match parseBodyToObject json5Parse resolvedRequestBody with
            | .ok fs => fs
            | .error _ =>
              (parseKeyValueLines resolvedRequestBody).map fun kv => (kv.1, Json.str kv.2)
          let entries : List (String × String) := payload.foldl (fun acc kv =>
            match kv.2 with
            | .arr items => acc ++ items.map fun it => (kv.1, jsToString it)
            | .null => acc
            | j => acc ++ [(kv.1, jsToString j)]) []
          .ok (.urlencoded entries, requestHeaders1)
        else .ok (.text resolvedRequestBody, requestHeaders1)
      else .ok (.noData, requestHeaders1)
    match bodyResult with
    | .error msg => .bodyError resolvedRequestBody msg
    | .ok (body, finalRequestHeaders) =>
      .send
        { method := method
          url := url
          data := if method = "get" ∨ method = "delete" then .noData else body
          headers := if finalRequestHeaders.isEmpty then none else some finalRequestHeaders
          withCredentials := securityPayload.useCookies }
        resolvedRequestBody

/-- Source `sendRequest`: build the request; a body-encoding failure is
recorded as a Response Record with an `error` field plus a History Entry; a
transport failure (the rejected promise's message) likewise; a transport
success records status/headers/body, applies the header-mapping rules, and
also appends a History Entry.  The transport, `JSON.stringify`
(`stringify`, and `stringify2` for the 2-space variant), the lenient parser
and `btoa` are external collaborators passed in; `idStr`/`now` stand for
the entry id and timestamp. -/
def sendRequest (st : SendState) (json5Parse : String → Except String Json)
    (stringify stringify2 : Json → String) (btoa : String → Option String)
    (transport : RequestConfig → Except String TransportResult)
    (idStr now : String) : SendState :=
  match sendRequestBuild st json5Parse stringify btoa with
  | .noApi => st
  | .bodyError resolvedBody msg =>
    let response : HttpResponse := { error := some msg }
    let st1 := { st with response := response }
    pushResponseHistory st1 (createResponseHistory st1 idStr now response resolvedBody)
  | .send config resolvedBody =>
    match transport config with
    | .ok result =>
      let st1 := applyHeaderMappings stringify st result.data
      let response : HttpResponse :=
        { status := some result.status
          headers := some (stringify2 (headersToJson result.headers))
          body := some (stringify2 result.data) }
      let st2 := { st1 with response := response }
      pushResponseHistory st2 (createResponseHistory st2 idStr now response resolvedBody)
    | .error msg =>
      let response : HttpResponse := { error := some msg }
      let st1 := { st with response := response }
      pushResponseHistory st1 (createResponseHistory st1 idStr now response resolvedBody)

/-- A schema node holding only a `$ref` into `components.schemas`. -/
def refToSchema (s : String) : Json :=
  .obj [("$ref", .str ("#/components/schemas/" ++ s))]

/-- A document whose `components.schemas` holds a pure `$ref` cycle
`s0 → s1 → ... → s(n-1) → s0` of length `n`. -/
def cycleDoc (n : Nat) : Json :=
  .obj [("components", .obj [("schemas", .obj ((List.range n).map fun i =>
    ("s" ++ toString i, refToSchema ("s" ++ toString ((i + 1) % n)))))])]

/-- Whether a resolution result carries the `circularRef: true` marker. -/
def hasCircularRef : Option Json → Bool
  | some (.obj fs) =>
    match rlookup fs "circularRef" with
    | some (.bool true) => true
    | _ => false
  | _ => false

/-- Navigation of `components/<group>/<name>` exactly as the specification
words it (record target, null otherwise); used to compare the source's two
ref resolvers against the specified navigation. -/
def componentsNav (spec : Json) (group name : String) : Option Json :=
  match jgetObj spec "components" with
  | none => none
  | some components =>
    match rlookup components group with
    | some (.obj groupObj) =>
      match rlookup groupObj name with
      | some (.obj fields) => some (.obj fields)
      | _ => none
    | _ => none

/-- A document declaring only `components.schemas.Foo` (for the C4
counterexample). -/
def sampleComponentsDoc : Json :=
  .obj [("openapi", .str "3.0.0"),
    ("components", .obj [("schemas", .obj [("Foo", .obj [("type", .str "object")])])])]

/-- A JSON document that contains `openapi`, `info` and `paths` but whose
`openapi` value is the empty string (for the C5 counterexample). -/
def emptyVersionDoc : Json :=
  .obj [("openapi", .str ""), ("info", .obj []), ("paths", .obj [])]

/-- A concrete history entry (for witnesses). -/
def sampleEntry (i : Nat) : ResponseHistoryItem :=
  { id := toString i
    timestamp := "2026-01-01T00:00:00.000Z"
    key := "GET /ping"
    method := "GET"
    path := "/ping"
    url := "/ping"
    pathParams := []
    queryParams := []
    headerParams := []
    requestBody := ""
    response := {} }

/-- A concrete minimal store state (for witnesses). -/
def emptySendState : SendState :=
  { selectedApi := none
    spec := none
    pathParams := []
    queryParams := []
    headerParams := []
    globalHeaders := []
    headerVariables := []
    headerDraft := []
    headerMappingDraft := []
    requestBody := ""
    requestContentType := none
    securityValues := []
    globalSecurityValues := []
    currentSpecKey := ""
    responseHistoryBySpec := []
    responseHistory := []
    response := {} }

/-- A concrete state with a JSON body draft (for witnesses). -/
def sampleBodyState : SendState :=
  { emptySendState with
    selectedApi := some { key := "POST /a", method := "POST", path := "/a" }
    requestBody := "x" }

/-- A concrete state with an empty body draft (for witnesses). -/
def sampleGetState : SendState :=
  { emptySendState with
    selectedApi := some { key := "GET /p", method := "GET", path := "/p" } }

/-! Lemmas about the path-parameter scanner. -/

theorem applyPathLoop_brace_run (params : List (String × String))
    (name : List Char) :
    ∀ (acc post : List Char), (∀ c ∈ name, c ≠ rbrace) →
      applyPathLoop params (some acc) (name ++ rbrace :: post)
        = if acc.reverse ++ name = [] then
            lbrace :: rbrace :: applyPathLoop params none post
          else
            pathParamReplacement params (acc.reverse ++ name) ++
              applyPathLoop params none post := by
  induction name with
  | nil =>
    intro acc post _
    simp only [List.nil_append, applyPathLoop, if_pos rfl, List.append_nil]
    rcases acc with _ | ⟨a, acc⟩
    · simp [List.isEmpty]
    · simp [List.isEmpty]
  | cons c name ih =>
    intro acc post hname
    have hc : c ≠ rbrace := hname c (by simp)
    simp only [List.cons_append, applyPathLoop, if_neg hc, List.append_eq]
    rw [ih (c :: acc) post (fun d hd => hname d (by simp [hd]))]
    simp

theorem applyPathLoop_decompose (params : List (String × String))
    (pre : List Char) :
    ∀ (name post : List Char), lbrace ∉ pre → name ≠ [] →
      (∀ c ∈ name, c ≠ rbrace) →
      applyPathLoop params none (pre ++ lbrace :: (name ++ rbrace :: post))
        = pre ++ (pathParamReplacement params name ++
            applyPathLoop params none post) := by
  induction pre with
  | nil =>
    intro name post _ hne hname
    simp only [List.nil_append, applyPathLoop, if_pos rfl]
    rw [applyPathLoop_brace_run params name [] post hname]
    simp [hne]
  | cons c pre ih =>
    intro name post hpre hne hname
    have hc : c ≠ lbrace := by
      intro h; exact hpre (by simp [h])
    simp only [List.cons_append, applyPathLoop, if_neg hc, List.append_eq]
    rw [ih name post (fun h => hpre (by simp [h])) hne hname]

theorem encodeURIComponentChars_append (a b : List Char) :
    encodeURIComponentChars (a ++ b)
      = encodeURIComponentChars a ++ encodeURIComponentChars b := by
  simp [encodeURIComponentChars]

/-- C2: the claim as stated is false on the code: `applyPathParams` wraps the
fallback literal placeholder in `encodeURIComponent`, so the unresolved
placeholder is emitted percent-encoded as `%7BpostId%7D`, not literally as
`\x7bpostId\x7d`; the claim's own example evaluates to
`"/users/5/posts/%7BpostId%7D"`. -/
theorem applyPathParams_claim_cex :
    applyPathParams "/users/\x7bid\x7d/posts/\x7bpostId\x7d" [("id", "5")]
        = "/users/5/posts/%7BpostId%7D" ∧
      applyPathParams "/users/\x7bid\x7d/posts/\x7bpostId\x7d" [("id", "5")]
        ≠ "/users/5/posts/\x7bpostId\x7d" := by
  exact ⟨rfl, by decide⟩

/-- C2 (amended): path substitution replaces each `\x7bname\x7d` placeholder
whose parameter is supplied with the percent-encoded parameter value, and
re-emits each placeholder with no supplied parameter as the percent-encoding
of the literal placeholder (`%7B name %7D`), never silently dropping it; in
particular the claim's example yields `"/users/5/posts/%7BpostId%7D"`. -/
theorem applyPathParams_placeholder_encoded
    (params : List (String × String)) (pre name post : List Char)
    (hpre : lbrace ∉ pre) (hne : name ≠ [])
    (hname : ∀ c ∈ name, c ≠ rbrace) :
    applyPathLoop params none (pre ++ lbrace :: (name ++ rbrace :: post))
        = pre ++ (pathParamReplacement params name ++
            applyPathLoop params none post) ∧
      (rlookup params (String.mk name) = none →
        pathParamReplacement params name
          = ['%', '7', 'B'] ++ encodeURIComponentChars name ++ ['%', '7', 'D']) ∧
      (∀ v, rlookup params (String.mk name) = some v →
        pathParamReplacement params name = encodeURIComponentChars v.data) ∧
      applyPathParams "/users/\x7bid\x7d/posts/\x7bpostId\x7d" [("id", "5")]
        = "/users/5/posts/%7BpostId%7D" := by
  refine ⟨applyPathLoop_decompose params pre name post hpre hne hname, ?_, ?_, rfl⟩
  · intro hnone
    have h1 : lbrace :: (name ++ [rbrace]) = [lbrace] ++ name ++ [rbrace] := by
      simp
    simp only [pathParamReplacement, hnone, h1,
      encodeURIComponentChars_append]
    rfl
  · intro v hv
    simp [pathParamReplacement, hv]

/-- C2 witness: the amended theorem applied to the claim's concrete example. -/
theorem applyPathParams_placeholder_encoded_witness :
    applyPathLoop [("id", "5")] none
        ("/users/5/posts/".data ++ lbrace :: ("postId".data ++ rbrace :: []))
        = "/users/5/posts/".data ++ (pathParamReplacement [("id", "5")] "postId".data ++
            applyPathLoop [("id", "5")] none []) ∧
      (rlookup [("id", "5")] (String.mk "postId".data) = none →
        pathParamReplacement [("id", "5")] "postId".data
          = ['%', '7', 'B'] ++ encodeURIComponentChars "postId".data ++ ['%', '7', 'D']) ∧
      (∀ v, rlookup [("id", "5")] (String.mk "postId".data) = some v →
        pathParamReplacement [("id", "5")] "postId".data = encodeURIComponentChars v.data) ∧
      applyPathParams "/users/\x7bid\x7d/posts/\x7bpostId\x7d" [("id", "5")]
        = "/users/5/posts/%7BpostId%7D" :=
  applyPathParams_placeholder_encoded [("id", "5")] "/users/5/posts/".data
    "postId".data [] (by decide) (by decide) (by decide)

/-! Lemmas about JS-object operations. -/

theorem rlookup_rset {α : Type} (o : List (String × α)) (key : String) (v : α) (k : String) :
    rlookup (rset o key v) k = if key = k then some v else rlookup o k := by
  induction o with
  | nil => simp [rset, rlookup]
  | cons hd t ih =>
    obtain ⟨k1, w⟩ := hd
    by_cases h1 : k1 = key
    · subst h1
      simp only [rset, if_pos rfl, rlookup]
      by_cases h2 : k1 = k <;> simp [h2]
    · simp only [rset, if_neg h1, rlookup, ih]
      by_cases h2 : k1 = k
      · have hkk : ¬ key = k := fun h => h1 (h2.trans h.symm)
        simp [h2, hkk]
      · simp [h2]

theorem hasKey_rset {α : Type} (o : List (String × α)) (key : String) (v : α) (k : String) :
    hasKey (rset o key v) k = (key == k || hasKey o k) := by
  simp only [hasKey, rlookup_rset]
  by_cases h : key = k <;> simp [h]

/-! Lemmas about list prefix truncation (for the bounded history). -/

theorem take_append_take {α : Type} (n : Nat) (a l : List α) :
    (a ++ l.take n).take n = (a ++ l).take n := by
  rw [List.take_append_eq_append_take, List.take_append_eq_append_take,
    List.take_take]
  congr 1
  simp [Nat.min_def]

/-! Lemmas about the bounded response history. -/

theorem historySpecKey_push (st : SendState) (e : ResponseHistoryItem) :
    historySpecKey (pushResponseHistory st e) = historySpecKey st := rfl

theorem rlookup_push_self (st : SendState) (e : ResponseHistoryItem) :
    rlookup (pushResponseHistory st e).responseHistoryBySpec (historySpecKey st)
      = some ((e :: (rlookup st.responseHistoryBySpec (historySpecKey st)).getD []).take
          MAX_RESPONSE_HISTORY) := by
  simp [pushResponseHistory, rlookup_rset]

theorem foldl_push_getD (entries : List ResponseHistoryItem) :
    ∀ st : SendState,
      ((rlookup st.responseHistoryBySpec (historySpecKey st)).getD []).length ≤ MAX_RESPONSE_HISTORY →
      (rlookup ((entries.foldl pushResponseHistory st).responseHistoryBySpec)
          (historySpecKey st)).getD []
        = (entries.reverse ++
            (rlookup st.responseHistoryBySpec (historySpecKey st)).getD []).take
            MAX_RESPONSE_HISTORY := by
  induction entries with
  | nil =>
    intro st hlen
    simpa using (List.take_of_length_le hlen).symm
  | cons e entries ih =>
    intro st hlen
    have hkey := historySpecKey_push st e
    have hstep := rlookup_push_self st e
    have hlen1 : ((rlookup (pushResponseHistory st e).responseHistoryBySpec
        (historySpecKey (pushResponseHistory st e))).getD []).length ≤ MAX_RESPONSE_HISTORY := by
      rw [hkey, hstep]
      simp [List.length_take_le]
    have := ih (pushResponseHistory st e) hlen1
    rw [hkey] at this
    rw [List.foldl_cons, this, hstep]
    simp only [Option.getD_some, List.reverse_cons]
    rw [take_append_take]
    simp

theorem foldl_push_history (entries : List ResponseHistoryItem) :
    ∀ st : SendState, entries ≠ [] →
      (entries.foldl pushResponseHistory st).responseHistory
        = (rlookup ((entries.foldl pushResponseHistory st).responseHistoryBySpec)
            (historySpecKey st)).getD [] := by
  induction entries with
  | nil => intro st h; exact absurd rfl h
  | cons e entries ih =>
    intro st _
    rcases Decidable.em (entries = []) with he | he
    · subst he
      simp [pushResponseHistory, rlookup_rset]
    · have hkey := historySpecKey_push st e
      rw [List.foldl_cons, ih (pushResponseHistory st e) he, hkey]

/-- C9: each send prepends its History Entry to the current specification's
history list (most-recent-first), other specifications' histories are
untouched, the list is truncated to at most 10 entries, and 11 pushes onto
an empty history retain exactly the 10 most recent entries with the oldest
evicted. -/
theorem pushResponseHistory_bounded_mostRecentFirst :
    (∀ (st : SendState) (e : ResponseHistoryItem),
      (pushResponseHistory st e).responseHistory.head? = some e ∧
      (pushResponseHistory st e).responseHistory.length ≤ MAX_RESPONSE_HISTORY ∧
      rlookup (pushResponseHistory st e).responseHistoryBySpec (historySpecKey st)
        = some (pushResponseHistory st e).responseHistory ∧
      (∀ k, k ≠ historySpecKey st →
        rlookup (pushResponseHistory st e).responseHistoryBySpec k
          = rlookup st.responseHistoryBySpec k)) ∧
    (∀ (st : SendState) (entries : List ResponseHistoryItem),
      entries.length = 11 →
      rlookup st.responseHistoryBySpec (historySpecKey st) = none →
      (entries.foldl pushResponseHistory st).responseHistory
          = entries.reverse.take MAX_RESPONSE_HISTORY ∧
        (entries.foldl pushResponseHistory st).responseHistory
          = (entries.drop 1).reverse ∧
        (entries.foldl pushResponseHistory st).responseHistory.length = 10) := by
  constructor
  · intro st e
    refine ⟨?_, ?_, ?_, ?_⟩
    · show ((e :: _).take MAX_RESPONSE_HISTORY).head? = some e
      rw [show MAX_RESPONSE_HISTORY = 9 + 1 from rfl, List.take_succ_cons]
      rfl
    · exact List.length_take_le _ _
    · exact rlookup_push_self st e
    · intro k hk
      simp only [pushResponseHistory, rlookup_rset]
      rw [if_neg (fun h => hk h.symm)]
  · intro st entries hlen hnone
    have hne : entries ≠ [] := by
      intro h; rw [h] at hlen; exact absurd hlen (by decide)
    have h1 := foldl_push_history entries st hne
    have h2 := foldl_push_getD entries st (by rw [hnone]; simp)
    rw [hnone] at h2
    simp only [Option.getD_none, List.append_nil] at h2
    have hmain : (entries.foldl pushResponseHistory st).responseHistory
        = entries.reverse.take MAX_RESPONSE_HISTORY := by rw [h1, h2]
    refine ⟨hmain, ?_, ?_⟩
    · rw [hmain]
      rcases entries with _ | ⟨e, rest⟩
      · exact absurd rfl hne
      · have hr : rest.length = 10 := by simpa using hlen
        simp only [List.reverse_cons, List.drop_succ_cons, List.drop_zero]
        rw [show MAX_RESPONSE_HISTORY = 10 from rfl, ← hr,
          ← List.length_reverse rest, List.take_left]
    · rw [hmain, List.length_take, List.length_reverse, hlen]
      rfl

/-- C9 witness: the theorem applied to a concrete state and 11 concrete
entries. -/
theorem pushResponseHistory_bounded_mostRecentFirst_witness :
    ((pushResponseHistory emptySendState (sampleEntry 0)).responseHistory.head?
        = some (sampleEntry 0) ∧
      rlookup (pushResponseHistory emptySendState (sampleEntry 0)).responseHistoryBySpec "other"
        = rlookup emptySendState.responseHistoryBySpec "other") ∧
    (((List.range 11).map sampleEntry).foldl pushResponseHistory emptySendState).responseHistory
      = (((List.range 11).map sampleEntry).drop 1).reverse := by
  have h1 := pushResponseHistory_bounded_mostRecentFirst.1 emptySendState (sampleEntry 0)
  have h2 := pushResponseHistory_bounded_mostRecentFirst.2 emptySendState
    ((List.range 11).map sampleEntry) (by decide) (by simp [emptySendState, rlookup])
  exact ⟨⟨h1.1, h1.2.2.2 "other" (by decide)⟩, h2.2.1⟩

/-! C3: cycle handling of the schema resolver. -/

/-- C3: counterexample — the claim fails for cycles longer than the depth
budget: on a document whose `components.schemas` holds a pure `$ref` cycle
of length 7, resolution starting at depth 0 reaches the revisited node only
at depth 7, where the depth ceiling returns it unchanged, so the result is
the original `$ref` node without any `circularRef: true` marker. -/
theorem resolveSchema_seven_cycle_cex :
    resolveSchema (some (cycleDoc 7)) (some (refToSchema "s0")) [] 0
        = some (refToSchema "s0") ∧
      hasCircularRef (resolveSchema (some (cycleDoc 7)) (some (refToSchema "s0")) [] 0)
        = false :=
  ⟨rfl, by decide⟩

/-- C3 (amended): `resolveSchema` always terminates (it is a total
function); a `$ref` revisited while the depth counter is still within the
ceiling returns the revisited node augmented with `circularRef: true`
instead of recursing; pure `$ref` cycles of length `n` with `1 ≤ n ≤ 6`
resolved from depth 0 produce the marker; and no call ever proceeds past
the fixed ceiling of 6 — at `depth > 6` resolution returns its input
unchanged.  Cycles needing more depth than remains (e.g. length ≥ 7 from
depth 0) stop via the ceiling and return the node unresolved instead of
marked. -/
theorem resolveSchema_cycle_detection :
    (∀ (spec : Option Json) (fields : List (String × Json)) (r : String)
        (seen : List String) (depth : Nat),
      depth ≤ MAX_SCHEMA_RESOLUTION_DEPTH →
      rlookup fields "$ref" = some (.str r) →
      seen.contains r = true →
      resolveSchema spec (some (.obj fields)) seen depth
        = some (.obj (rset fields "circularRef" (.bool true)))) ∧
    (∀ n < 6, hasCircularRef
      (resolveSchema (some (cycleDoc (n + 1))) (some (refToSchema "s0")) [] 0) = true) ∧
    (∀ (spec : Option Json) (schema : Option Json) (seen : List String) (depth : Nat),
      MAX_SCHEMA_RESOLUTION_DEPTH < depth →
      resolveSchema spec schema seen depth = schema) := by
  refine ⟨?_, by decide, ?_⟩
  · intro spec fields r seen depth hdepth href hseen
    have hf : MAX_SCHEMA_RESOLUTION_DEPTH + 1 - depth
        = (MAX_SCHEMA_RESOLUTION_DEPTH - depth) + 1 := by
      simp only [MAX_SCHEMA_RESOLUTION_DEPTH] at hdepth ⊢
      omega
    unfold resolveSchema
    rw [hf]
    have hmem : r ∈ seen := by simpa using hseen
    simp [resolveSchemaF, jgetStr, jget, href, hmem, jset]
  · intro spec schema seen depth hdepth
    have hf : MAX_SCHEMA_RESOLUTION_DEPTH + 1 - depth = 0 := by
      simp only [MAX_SCHEMA_RESOLUTION_DEPTH] at hdepth ⊢
      omega
    unfold resolveSchema
    rw [hf]
    cases schema <;> rfl

/-- C3 witness: the amended theorem applied at concrete inputs — the cycle
branch on a concrete self-referential node at depth 1, the small-cycle
family at n = 0, and the ceiling exit at depth 7. -/
theorem resolveSchema_cycle_detection_witness :
    resolveSchema (some (cycleDoc 1)) (some (refToSchema "s0"))
        ["#/components/schemas/s0"] 1
      = some (.obj [("$ref", .str "#/components/schemas/s0"),
          ("circularRef", .bool true)]) ∧
    hasCircularRef
      (resolveSchema (some (cycleDoc 1)) (some (refToSchema "s0")) [] 0) = true ∧
    resolveSchema none (some (refToSchema "s0")) [] 7 = some (refToSchema "s0") :=
  ⟨resolveSchema_cycle_detection.1 (some (cycleDoc 1))
      [("$ref", .str "#/components/schemas/s0")] "#/components/schemas/s0"
      ["#/components/schemas/s0"] 1 (by decide) rfl (by decide),
    resolveSchema_cycle_detection.2.1 0 (by decide),
    resolveSchema_cycle_detection.2.2 none (some (refToSchema "s0")) [] 7 (by decide)⟩

/-! Lemmas about character-level splitting. -/

theorem splitOnChar_no_sep (sep : Char) :
    ∀ l : List Char, (∀ c ∈ l, c ≠ sep) → splitOnChar sep l = [l] := by
  intro l
  induction l with
  | nil => intro _; rfl
  | cons c rest ih =>
    intro h
    have hc : c ≠ sep := h c (by simp)
    simp only [splitOnChar, if_neg hc]
    rw [ih (fun d hd => h d (by simp [hd]))]

theorem splitOnChar_append_sep (sep : Char) :
    ∀ (c rest : List Char), (∀ ch ∈ c, ch ≠ sep) →
      splitOnChar sep (c ++ sep :: rest) = c :: splitOnChar sep rest := by
  intro c
  induction c with
  | nil => intro rest _; simp [splitOnChar]
  | cons a c ih =>
    intro rest h
    have ha : a ≠ sep := h a (by simp)
    simp only [List.cons_append, splitOnChar, if_neg ha, List.append_eq]
    rw [ih rest (fun d hd => h d (by simp [hd]))]

/-! C4: `$ref` navigation. -/

/-- C4: counterexample — the claim fails for `getSchemaFromRef`: a ref whose
pointer names the group `responses` (which the document does not declare)
still resolves, because `getSchemaFromRef` ignores the group and looks the
last segment up in `components.schemas`; navigating
`components/responses/Foo` as the claim describes (and as
`getComponentFromRef` does) finds nothing. -/
theorem getSchemaFromRef_group_ignored_cex :
    getSchemaFromRef (some sampleComponentsDoc) (some "#/components/responses/Foo")
        = some (.obj [("type", .str "object")]) ∧
      componentsNav sampleComponentsDoc "responses" "Foo" = none ∧
      getComponentFromRef (some sampleComponentsDoc) (some "#/components/responses/Foo")
        = none :=
  ⟨rfl, rfl, rfl⟩

/-- C4 (amended): `getComponentFromRef` splits the pointer and navigates
`components/<group>/<name>` taking group and name as the third and fourth
`/`-segments; `getSchemaFromRef` ignores the ref's group and always
navigates `components/schemas/<last-segment>`; both return null for every
unresolvable ref (falsy ref or spec, missing group/name, failed
navigation — the failed-navigation cases being exactly the `none` results
of the navigation function the equations reduce to). -/
theorem refResolution_navigation (spec : Json) (g n : String)
    (hspec : truthy spec = true) (hrec : isRecordJ spec = true)
    (hg : g ≠ "") (hn : n ≠ "")
    (hgs : ∀ c ∈ g.data, c ≠ '/') (hns : ∀ c ∈ n.data, c ≠ '/') :
    getComponentFromRef (some spec) (some ("#/components/" ++ g ++ "/" ++ n))
        = componentsNav spec g n ∧
      getSchemaFromRef (some spec) (some ("#/components/" ++ g ++ "/" ++ n))
        = componentsNav spec "schemas" n ∧
      getComponentFromRef (some spec) none = none ∧
      getComponentFromRef (some spec) (some "") = none ∧
      getSchemaFromRef (some spec) none = none ∧
      getSchemaFromRef (some spec) (some "") = none := by
  have h1 : ("#/components/" ++ g ++ "/" ++ n).data
      = "#".data ++ '/' :: ("components".data ++ '/' :: (g.data ++ '/' :: n.data)) := by
    simp only [String.data_append, List.append_assoc]
    rfl
  have hsplit : splitOnChar '/' ("#/components/" ++ g ++ "/" ++ n).data
      = ["#".data, "components".data, g.data, n.data] := by
    rw [h1, splitOnChar_append_sep '/' _ _ (by decide),
      splitOnChar_append_sep '/' _ _ (by decide),
      splitOnChar_append_sep '/' _ _ hgs,
      splitOnChar_no_sep '/' _ hns]
  have hrne : ("#/components/" ++ g ++ "/" ++ n) ≠ "" := by
    intro h
    have hd := congrArg String.data h
    rw [h1] at hd
    simp at hd
  refine ⟨?_, ?_, rfl, by simp [getComponentFromRef], rfl, by simp [getSchemaFromRef]⟩
  · simp only [getComponentFromRef]
    rw [if_neg (by simp [hrne, hspec])]
    rw [if_neg (by simp [hrec])]
    cases hcomp : jgetObj spec "components" with
    | none => simp [componentsNav, hcomp]
    | some components =>
      simp only [componentsNav, hcomp, hsplit]
      have hmap : (["#".data, "components".data, g.data, n.data].map String.mk)
          = ["#", "components", g, n] := rfl
      rw [hmap]
      rw [if_neg (by simp [hg, hn])]
      rfl
  · simp only [getSchemaFromRef]
    rw [if_neg (by simp [hrne, hspec])]
    cases hcomp : jgetObj spec "components" with
    | none => simp [componentsNav, hcomp]
    | some components =>
      simp only [componentsNav, hcomp, hsplit]
      have hmap : (["#".data, "components".data, g.data, n.data].map String.mk)
          = ["#", "components", g, n] := rfl
      rw [hmap]
      rfl

/-- C4 witness: the amended theorem applied to the counterexample document
with the canonical group `schemas` and name `Foo`. -/
theorem refResolution_navigation_witness :
    getComponentFromRef (some sampleComponentsDoc)
        (some ("#/components/" ++ "schemas" ++ "/" ++ "Foo"))
        = componentsNav sampleComponentsDoc "schemas" "Foo" ∧
      getSchemaFromRef (some sampleComponentsDoc)
        (some ("#/components/" ++ "schemas" ++ "/" ++ "Foo"))
        = componentsNav sampleComponentsDoc "schemas" "Foo" ∧
      getComponentFromRef (some sampleComponentsDoc) none = none ∧
      getComponentFromRef (some sampleComponentsDoc) (some "") = none ∧
      getSchemaFromRef (some sampleComponentsDoc) none = none ∧
      getSchemaFromRef (some sampleComponentsDoc) (some "") = none :=
  refResolution_navigation sampleComponentsDoc "schemas" "Foo" rfl rfl
    (by decide) (by decide) (by decide) (by decide)

/-! C5: the spec parser. -/

/-- C5: counterexample — a valid JSON document that contains an `openapi`
field (value `""`) plus `info` and `paths` is rejected: the validation uses
JS truthiness (`!parsed.openapi`), so the empty-string version fails with
the missing-version error instead of succeeding as the claim states.  The
strict-JSON parser (external) is instantiated with the object that
`JSON.parse` produces for this input. -/
theorem parseMetadataText_falsy_version_cex :
    parseMetadataText (fun _ => .ok emptyVersionDoc) (fun _ => .error "json5 fail")
        (fun _ => .error "yaml fail")
        "\x7b\"openapi\":\"\",\"info\":\x7b\x7d,\"paths\":\x7b\x7d\x7d"
        = .error missingVersionMsg ∧
      parseMetadataText (fun _ => .ok emptyVersionDoc) (fun _ => .error "json5 fail")
        (fun _ => .error "yaml fail")
        "\x7b\"openapi\":\"\",\"info\":\x7b\x7d,\"paths\":\x7b\x7d\x7d"
        ≠ .ok emptyVersionDoc :=
  ⟨rfl, fun h => Except.noConfusion h⟩

/-- C5 (amended): parse attempts strict JSON, then the lenient parser, then
YAML, in that order; for every document one of them parses to a non-array
object with a truthy (present and non-empty) `openapi` or `swagger` value
and truthy `info` and `paths` — the earlier parsers having failed — it
succeeds and returns that object unchanged (deep-equal); it fails with the
descriptive errors when the structurally parsed result is not a non-array
object, when both version fields are absent or falsy, or when `info` or
`paths` is absent or falsy; and when all three parse attempts fail, the
error carries the last (YAML) parser's message. -/
theorem parseMetadataText_spec
    (jsonParse json5Parse yamlParse : String → Except String Json) (raw : String) :
    (∀ v, jsonParse raw = .ok v → isRecordJ v = true →
      (truthyOpt (jget v "openapi") = true ∨ truthyOpt (jget v "swagger") = true) →
      truthyOpt (jget v "info") = true → truthyOpt (jget v "paths") = true →
      parseMetadataText jsonParse json5Parse yamlParse raw = .ok v) ∧
    (∀ e1 v, jsonParse raw = .error e1 → json5Parse raw = .ok v → isRecordJ v = true →
      (truthyOpt (jget v "openapi") = true ∨ truthyOpt (jget v "swagger") = true) →
      truthyOpt (jget v "info") = true → truthyOpt (jget v "paths") = true →
      parseMetadataText jsonParse json5Parse yamlParse raw = .ok v) ∧
    (∀ e1 e2 v, jsonParse raw = .error e1 → json5Parse raw = .error e2 →
      yamlParse raw = .ok v → isRecordJ v = true →
      (truthyOpt (jget v "openapi") = true ∨ truthyOpt (jget v "swagger") = true) →
      truthyOpt (jget v "info") = true → truthyOpt (jget v "paths") = true →
      parseMetadataText jsonParse json5Parse yamlParse raw = .ok v) ∧
    (∀ v, jsonParse raw = .ok v →
      (truthy v = false ∨ jsTypeofObject v = false ∨ isArrayJ v = true) →
      parseMetadataText jsonParse json5Parse yamlParse raw = .error notObjectMsg) ∧
    (∀ v, jsonParse raw = .ok v → isRecordJ v = true →
      truthyOpt (jget v "openapi") = false → truthyOpt (jget v "swagger") = false →
      parseMetadataText jsonParse json5Parse yamlParse raw = .error missingVersionMsg) ∧
    (∀ v, jsonParse raw = .ok v → isRecordJ v = true →
      (truthyOpt (jget v "openapi") = true ∨ truthyOpt (jget v "swagger") = true) →
      (truthyOpt (jget v "info") = false ∨ truthyOpt (jget v "paths") = false) →
      parseMetadataText jsonParse json5Parse yamlParse raw = .error missingInfoPathsMsg) ∧
    (∀ e1 e2 e3, jsonParse raw = .error e1 → json5Parse raw = .error e2 →
      yamlParse raw = .error e3 →
      parseMetadataText jsonParse json5Parse yamlParse raw = .error e3) := by
  have hvalid : ∀ v : Json, isRecordJ v = true →
      (!truthy v || !jsTypeofObject v || isArrayJ v) = false := by
    intro v hv
    cases v <;> simp_all [truthy, jsTypeofObject, isArrayJ, isRecordJ]
  refine ⟨?_, ?_, ?_, ?_, ?_, ?_, ?_⟩
  · intro v hj hrec hver hinfo hpaths
    rcases hver with hver | hver <;>
      simp [parseMetadataText, hj, hvalid v hrec, hver, hinfo, hpaths]
  · intro e1 v hj h5 hrec hver hinfo hpaths
    rcases hver with hver | hver <;>
      simp [parseMetadataText, hj, h5, hvalid v hrec, hver, hinfo, hpaths]
  · intro e1 e2 v hj h5 hy hrec hver hinfo hpaths
    rcases hver with hver | hver <;>
      simp [parseMetadataText, hj, h5, hy, hvalid v hrec, hver, hinfo, hpaths]
  · intro v hj hbad
    rcases hbad with hbad | hbad | hbad <;> simp [parseMetadataText, hj, hbad]
  · intro v hj hrec hopenapi hswagger
    simp [parseMetadataText, hj, hvalid v hrec, hopenapi, hswagger]
  · intro v hj hrec hver hbad
    rcases hver with hver | hver <;> rcases hbad with hbad | hbad <;>
      simp [parseMetadataText, hj, hvalid v hrec, hver, hbad]
  · intro e1 e2 e3 hj h5 hy
    simp [parseMetadataText, hj, h5, hy]

/-- C5 witness: the amended theorem applied at concrete inputs — a minimal
valid document through the strict parser, and a failure of all three
parsers surfacing the YAML message. -/
theorem parseMetadataText_spec_witness :
    parseMetadataText
        (fun _ => .ok (.obj [("openapi", .str "3.0.0"), ("info", .obj []),
          ("paths", .obj [])]))
        (fun _ => .error "e2") (fun _ => .error "e3") "doc"
        = .ok (.obj [("openapi", .str "3.0.0"), ("info", .obj []), ("paths", .obj [])]) ∧
      parseMetadataText (fun _ => .error "e1") (fun _ => .error "e2")
        (fun _ => .error "e3") "doc" = .error "e3" :=
  ⟨(parseMetadataText_spec _ _ _ "doc").1
      (.obj [("openapi", .str "3.0.0"), ("info", .obj []), ("paths", .obj [])])
      rfl rfl (Or.inl rfl) rfl rfl,
    (parseMetadataText_spec _ _ _ "doc").2.2.2.2.2.2 "e1" "e2" "e3" rfl rfl rfl⟩

/-! More JS-object lemmas (fresh-key insertion). -/

theorem rlookup_append {α : Type} (a b : List (String × α)) (k : String) :
    rlookup (a ++ b) k
      = match rlookup a k with
        | some v => some v
        | none => rlookup b k := by
  induction a with
  | nil => rfl
  | cons hd t ih =>
    obtain ⟨k1, w⟩ := hd
    by_cases h : k1 = k <;> simp [rlookup, h, ih]

theorem rset_of_not_hasKey {α : Type} (o : List (String × α)) (key : String) (v : α)
    (h : hasKey o key = false) : rset o key v = o ++ [(key, v)] := by
  induction o with
  | nil => rfl
  | cons hd t ih =>
    obtain ⟨k1, w⟩ := hd
    simp only [hasKey, rlookup] at h
    by_cases h1 : k1 = key
    · rw [if_pos h1] at h
      simp at h
    · rw [if_neg h1] at h
      simp only [rset, if_neg h1, List.cons_append]
      rw [ih h]

theorem foldl_rset_eq_map {α β : Type} (f : String × β → α) :
    ∀ (l : List (String × β)) (acc : List (String × α)),
      (∀ kv ∈ l, hasKey acc kv.1 = false) → (l.map Prod.fst).Nodup →
      l.foldl (fun acc2 kv => rset acc2 kv.1 (f kv)) acc
        = acc ++ l.map (fun kv => (kv.1, f kv)) := by
  intro l
  induction l with
  | nil => intro acc _ _; simp
  | cons kv l ih =>
    intro acc hfresh hnodup
    simp only [List.foldl_cons]
    rw [rset_of_not_hasKey acc kv.1 (f kv) (hfresh kv (by simp))]
    have hnodup2 : (l.map Prod.fst).Nodup := by
      simpa using hnodup.of_cons
    have hfresh2 : ∀ kv2 ∈ l, hasKey (acc ++ [(kv.1, f kv)]) kv2.1 = false := by
      intro kv2 hkv2
      have hne : kv2.1 ≠ kv.1 := by
        intro h
        have hmem : kv.1 ∈ l.map Prod.fst := h ▸ List.mem_map_of_mem Prod.fst hkv2
        simp only [List.map_cons, List.nodup_cons] at hnodup
        exact hnodup.1 hmem
      have hacc := hfresh kv2 (by simp [hkv2])
      simp only [hasKey, rlookup_append] at hacc ⊢
      cases hlook : rlookup acc kv2.1 with
      | some w => rw [hlook] at hacc; simp at hacc
      | none =>
        simp only [hlook, rlookup]
        rw [if_neg (fun h => hne h.symm)]
        rfl
    rw [ih (acc ++ [(kv.1, f kv)]) hfresh2 hnodup2]
    simp

/-! C8: default-value synthesis. -/

theorem buildDefaultF_none (spec : Option Json) (now : String) (k : Nat) :
    buildDefaultF spec now k none = .obj [] := by
  cases k <;> rfl

/-- C8: counterexample — for an array schema whose item default is not an
object (`items: \x7btype: integer\x7d`, item default `0`), the source
returns an empty array, not the single-element array `[0]` the claim
states. -/
theorem buildDefault_array_scalar_item_cex :
    buildDefaultFromSchema none "2026-01-01T00:00:00.000Z"
        (some (.obj [("type", .str "array"), ("items", .obj [("type", .str "integer")])])) 0
        = .arr [] ∧
      buildDefaultFromSchema none "2026-01-01T00:00:00.000Z"
        (some (.obj [("type", .str "array"), ("items", .obj [("type", .str "integer")])])) 0
        ≠ .arr [.num 0] := by
  refine ⟨rfl, fun h => ?_⟩
  have h2 : Json.arr [] = Json.arr [Json.num 0] := h
  injection h2 with h3
  exact List.noConfusion h3

/-- C8 (amended): within the depth bound and in the absence of the
composition keywords (`$ref`, `allOf`, `oneOf`, `anyOf`, which take
precedence), `buildDefault` follows the precedence: explicit `default`
value, else first `enum` value, else (for arrays) a single-element array of
the item default **when that default is an object, else an empty array**,
else (for objects or schemas with properties) an object holding each
property's default, else `false` for boolean, `0` for integer/number, the
current-time ISO string for `date-time` format, and the literal placeholder
string `"string"` otherwise; in particular
`\x7btype: object, properties: \x7ba: \x7btype: integer\x7d\x7d\x7d`
yields `\x7ba: 0\x7d`. -/
theorem buildDefault_precedence (spec : Option Json) (now : String) (s : Json)
    (depth : Nat) (hdepth : depth ≤ MAX_SCHEMA_RESOLUTION_DEPTH)
    (href : jgetStr s "$ref" = none) (hallOf : jgetArr s "allOf" = none)
    (honeOf : jgetArr s "oneOf" = none) (hanyOf : jgetArr s "anyOf" = none) :
    (∀ d, jget s "default" = some d → buildDefaultFromSchema spec now (some s) depth = d) ∧
    (∀ e es, jget s "default" = none → jgetArr s "enum" = some (e :: es) →
      buildDefaultFromSchema spec now (some s) depth = e) ∧
    (jget s "default" = none → jgetArr s "enum" = none →
      jgetStr s "type" = some "array" →
      buildDefaultFromSchema spec now (some s) depth
        = (if isRecordJ (buildDefaultFromSchema spec now
              ((jgetObj s "items").map Json.obj) (depth + 1)) = true then
            .arr [buildDefaultFromSchema spec now
              ((jgetObj s "items").map Json.obj) (depth + 1)]
          else .arr [])) ∧
    (∀ props, jget s "default" = none → jgetArr s "enum" = none →
      jgetStr s "type" ≠ some "array" → jgetObj s "properties" = some props →
      (props.map Prod.fst).Nodup →
      buildDefaultFromSchema spec now (some s) depth
        = .obj (props.map fun kv =>
            (kv.1, buildDefaultFromSchema spec now
              (if isRecordJ kv.2 then some kv.2 else none) (depth + 1)))) ∧
    (jget s "default" = none → jgetArr s "enum" = none →
      jgetObj s "properties" = none → jgetStr s "type" = some "boolean" →
      buildDefaultFromSchema spec now (some s) depth = .bool false) ∧
    (jget s "default" = none → jgetArr s "enum" = none →
      jgetObj s "properties" = none →
      (jgetStr s "type" = some "integer" ∨ jgetStr s "type" = some "number") →
      buildDefaultFromSchema spec now (some s) depth = .num 0) ∧
    (∀ t, jget s "default" = none → jgetArr s "enum" = none →
      jgetObj s "properties" = none → jgetStr s "type" = some t →
      t ≠ "array" → t ≠ "object" → t ≠ "boolean" → t ≠ "integer" → t ≠ "number" →
      buildDefaultFromSchema spec now (some s) depth
        = (if jgetStr s "format" = some "date-time" then .str now else .str "string")) ∧
    buildDefaultFromSchema spec now
        (some (.obj [("type", .str "object"),
          ("properties", .obj [("a", .obj [("type", .str "integer")])])])) 0
      = .obj [("a", .num 0)] := by
  obtain ⟨k, hk⟩ : ∃ k, MAX_SCHEMA_RESOLUTION_DEPTH + 1 - depth = k + 1 :=
    ⟨MAX_SCHEMA_RESOLUTION_DEPTH - depth, by
      simp only [MAX_SCHEMA_RESOLUTION_DEPTH] at hdepth ⊢; omega⟩
  have hk2 : MAX_SCHEMA_RESOLUTION_DEPTH + 1 - (depth + 1) = k := by
    simp only [MAX_SCHEMA_RESOLUTION_DEPTH] at hk ⊢; omega
  refine ⟨?_, ?_, ?_, ?_, ?_, ?_, ?_, rfl⟩
  · intro d hd
    unfold buildDefaultFromSchema
    rw [hk]
    simp [buildDefaultF, href, hallOf, honeOf, hanyOf, hd]
  · intro e es hd he
    unfold buildDefaultFromSchema
    rw [hk]
    simp [buildDefaultF, href, hallOf, honeOf, hanyOf, hd, he]
  · intro hd he htype
    unfold buildDefaultFromSchema
    rw [hk, hk2]
    cases hitems : jgetObj s "items" with
    | none =>
      simp only [buildDefaultF, href, hallOf, honeOf, hanyOf, hd, he, htype, hitems]
      rw [show Option.map Json.obj none = (none : Option Json) from rfl,
        buildDefaultF_none]
      simp [isRecordJ]
    | some fs =>
      simp only [buildDefaultF, href, hallOf, honeOf, hanyOf, hd, he, htype, hitems,
        Option.map_some]
      cases hbuilt : buildDefaultF spec now k (some (.obj fs)) <;>
        simp [isRecordJ, hbuilt]
  · intro props hd he htype hprops hnodup
    unfold buildDefaultFromSchema
    rw [hk, hk2]
    simp only [buildDefaultF, href, hallOf, honeOf, hanyOf, hd, he, hprops]
    rw [if_neg (by simp [htype])]
    rw [if_pos (by simp [hprops])]
    simp only [Option.getD_some]
    rw [foldl_rset_eq_map
      (fun kv => buildDefaultF spec now k
        (if isRecordJ kv.2 = true then some kv.2 else none))
      props [] (by intro kv _; rfl) hnodup]
    simp
  · intro hd he hprops htype
    unfold buildDefaultFromSchema
    rw [hk]
    simp [buildDefaultF, href, hallOf, honeOf, hanyOf, hd, he, hprops, htype]
  · intro hd he hprops htype
    unfold buildDefaultFromSchema
    rw [hk]
    rcases htype with htype | htype <;>
      simp [buildDefaultF, href, hallOf, honeOf, hanyOf, hd, he, hprops, htype]
  · intro t hd he hprops htype ha1 ha2 ha3 ha4 ha5
    unfold buildDefaultFromSchema
    rw [hk]
    simp only [buildDefaultF, href, hallOf, honeOf, hanyOf, hd, he, hprops, htype]
    rw [if_neg (by simp [ha1])]
    rw [if_neg (by simp [ha2])]
    rw [if_neg (by simp [ha3])]
    rw [if_neg (by simp [ha4, ha5])]

/-- C8 witness: the amended theorem applied to a concrete schema that
exercises the explicit-default case and the final placeholder case. -/
theorem buildDefault_precedence_witness :
    buildDefaultFromSchema none "NOW" (some (.obj [("default", .num 42)])) 0
        = .num 42 ∧
      buildDefaultFromSchema none "NOW" (some (.obj [("type", .str "string")])) 0
        = (if jgetStr (.obj [("type", .str "string")]) "format" = some "date-time" then
            Json.str "NOW"
          else Json.str "string") :=
  ⟨(buildDefault_precedence none "NOW" (.obj [("default", .num 42)]) 0 (by decide)
      rfl rfl rfl rfl).1 (.num 42) rfl,
    (buildDefault_precedence none "NOW" (.obj [("type", .str "string")]) 0 (by decide)
      rfl rfl rfl rfl).2.2.2.2.2.2.1 "string" rfl rfl rfl rfl
      (by decide) (by decide) (by decide) (by decide) (by decide)⟩

/-! C6: security contributions fill gaps only. -/

theorem applySecurityHeaders_cons (base : List (String × String))
    (e : String × String) (rest : List (String × String)) :
    applySecurityHeaders base (e :: rest)
      = applySecurityHeaders (applySecurityHeaders base [e]) rest := rfl

theorem applySecurityHeaders_single_none (base : List (String × String))
    (e : String × String) (h : rlookup base e.1 = none) :
    applySecurityHeaders base [e] = rset base e.1 e.2 := by
  simp [applySecurityHeaders, h]

theorem applySecurityHeaders_single_empty (base : List (String × String))
    (e : String × String) (h : rlookup base e.1 = some "") :
    applySecurityHeaders base [e] = rset base e.1 e.2 := by
  simp [applySecurityHeaders, h]

theorem applySecurityHeaders_single_cookie (base : List (String × String))
    (e : String × String) (w : String) (h : rlookup base e.1 = some w)
    (hw : w ≠ "") (hc : jsToLower e.1 = "cookie") :
    applySecurityHeaders base [e] = rset base e.1 (w ++ "; " ++ e.2) := by
  simp [applySecurityHeaders, h, hw, hc]

theorem applySecurityHeaders_single_keep (base : List (String × String))
    (e : String × String) (w : String) (h : rlookup base e.1 = some w)
    (hw : w ≠ "") (hc : ¬jsToLower e.1 = "cookie") :
    applySecurityHeaders base [e] = base := by
  simp [applySecurityHeaders, h, hw, hc]

theorem applySecurityHeaders_step_ne (base : List (String × String))
    (e : String × String) (k : String) (hk : e.1 ≠ k) :
    rlookup (applySecurityHeaders base [e]) k = rlookup base k := by
  cases hlook : rlookup base e.1 with
  | none => rw [applySecurityHeaders_single_none base e hlook, rlookup_rset, if_neg hk]
  | some w =>
    by_cases hw : w = ""
    · subst hw
      rw [applySecurityHeaders_single_empty base e hlook, rlookup_rset, if_neg hk]
    · by_cases hc : jsToLower e.1 = "cookie"
      · rw [applySecurityHeaders_single_cookie base e w hlook hw hc, rlookup_rset,
          if_neg hk]
      · rw [applySecurityHeaders_single_keep base e w hlook hw hc]

theorem applySecurityHeaders_untouched (sec : List (String × String)) :
    ∀ (base : List (String × String)) (k : String), (∀ kv ∈ sec, kv.1 ≠ k) →
      rlookup (applySecurityHeaders base sec) k = rlookup base k := by
  induction sec with
  | nil => intro base k _; rfl
  | cons e rest ih =>
    intro base k hk
    rw [applySecurityHeaders_cons,
      ih _ k (fun kv hkv => hk kv (by simp [hkv])),
      applySecurityHeaders_step_ne base e k (hk e (by simp))]

theorem applySecurityHeaders_preserves (sec : List (String × String)) :
    ∀ (base : List (String × String)) (k v : String),
      rlookup base k = some v → v ≠ "" → jsToLower k ≠ "cookie" →
      rlookup (applySecurityHeaders base sec) k = some v := by
  induction sec with
  | nil => intro base k v hv _ _; exact hv
  | cons e rest ih =>
    intro base k v hv hne hck
    rw [applySecurityHeaders_cons]
    apply ih _ k v ?_ hne hck
    by_cases hk : e.1 = k
    · have hv1 : rlookup base e.1 = some v := hk ▸ hv
      rw [applySecurityHeaders_single_keep base e v hv1 hne (hk ▸ hck)]
      exact hv
    · rw [applySecurityHeaders_step_ne base e k hk]
      exact hv

theorem applySecurityHeaders_fills (sec : List (String × String)) :
    ∀ (base : List (String × String)) (k v : String),
      (rlookup base k = none ∨ rlookup base k = some "") →
      rlookup sec k = some v → (sec.map Prod.fst).Nodup →
      rlookup (applySecurityHeaders base sec) k = some v := by
  induction sec with
  | nil => intro base k v _ hsec _; exact absurd hsec (by simp [rlookup])
  | cons e rest ih =>
    intro base k v hgap hsec hnodup
    obtain ⟨k1, v1⟩ := e
    rw [applySecurityHeaders_cons]
    simp only [List.map_cons, List.nodup_cons] at hnodup
    by_cases hk : k1 = k
    · have hv1 : v1 = v := by
        simpa [rlookup, hk] using hsec
      subst hv1
      have hfresh : ∀ kv ∈ rest, kv.1 ≠ k := by
        intro kv hkv h
        exact hnodup.1 (hk ▸ h ▸ List.mem_map_of_mem Prod.fst hkv)
      rw [applySecurityHeaders_untouched rest _ k hfresh]
      have hset : applySecurityHeaders base [(k1, v1)] = rset base k1 v1 := by
        rcases hgap with hgap | hgap
        · exact applySecurityHeaders_single_none base (k1, v1) (hk ▸ hgap)
        · exact applySecurityHeaders_single_empty base (k1, v1) (hk ▸ hgap)
      rw [hset, rlookup_rset, if_pos hk]
    · have hsec2 : rlookup rest k = some v := by
        simpa [rlookup, hk] using hsec
      apply ih _ k v ?_ hsec2 hnodup.2
      rw [applySecurityHeaders_step_ne base (k1, v1) k hk]
      exact hgap

theorem applySecurityHeaders_cookie_append (sec : List (String × String)) :
    ∀ (base : List (String × String)) (k v c : String),
      rlookup base k = some v → v ≠ "" → jsToLower k = "cookie" →
      rlookup sec k = some c → (sec.map Prod.fst).Nodup →
      rlookup (applySecurityHeaders base sec) k = some (v ++ "; " ++ c) := by
  induction sec with
  | nil => intro base k v c _ _ _ hsec _; exact absurd hsec (by simp [rlookup])
  | cons e rest ih =>
    intro base k v c hv hne hck hsec hnodup
    obtain ⟨k1, c1⟩ := e
    rw [applySecurityHeaders_cons]
    simp only [List.map_cons, List.nodup_cons] at hnodup
    by_cases hk : k1 = k
    · have hc1 : c1 = c := by
        simpa [rlookup, hk] using hsec
      subst hc1
      have hfresh : ∀ kv ∈ rest, kv.1 ≠ k := by
        intro kv hkv h
        exact hnodup.1 (hk ▸ h ▸ List.mem_map_of_mem Prod.fst hkv)
      rw [applySecurityHeaders_untouched rest _ k hfresh]
      rw [applySecurityHeaders_single_cookie base (k1, c1) v (hk ▸ hv) hne (hk ▸ hck),
        rlookup_rset, if_pos hk]
    · have hsec2 : rlookup rest k = some c := by
        simpa [rlookup, hk] using hsec
      apply ih _ k v c ?_ hne hck hsec2 hnodup.2
      rw [applySecurityHeaders_step_ne base (k1, c1) k hk]
      exact hv

theorem mergeSecurityQueryParams_cons (base : List (String × String))
    (e : String × String) (rest : List (String × String)) :
    mergeSecurityQueryParams base (e :: rest)
      = mergeSecurityQueryParams (mergeSecurityQueryParams base [e]) rest := rfl

theorem mergeSecurityQueryParams_single_none (base : List (String × String))
    (e : String × String) (h : rlookup base e.1 = none) :
    mergeSecurityQueryParams base [e] = rset base e.1 e.2 := by
  simp [mergeSecurityQueryParams, h]

theorem mergeSecurityQueryParams_single_empty (base : List (String × String))
    (e : String × String) (h : rlookup base e.1 = some "") :
    mergeSecurityQueryParams base [e] = rset base e.1 e.2 := by
  simp [mergeSecurityQueryParams, h]

theorem mergeSecurityQueryParams_single_keep (base : List (String × String))
    (e : String × String) (w : String) (h : rlookup base e.1 = some w) (hw : w ≠ "") :
    mergeSecurityQueryParams base [e] = base := by
  simp [mergeSecurityQueryParams, h, hw]

theorem mergeSecurityQueryParams_step_ne (base : List (String × String))
    (e : String × String) (k : String) (hk : e.1 ≠ k) :
    rlookup (mergeSecurityQueryParams base [e]) k = rlookup base k := by
  cases hlook : rlookup base e.1 with
  | none => rw [mergeSecurityQueryParams_single_none base e hlook, rlookup_rset, if_neg hk]
  | some w =>
    by_cases hw : w = ""
    · subst hw
      rw [mergeSecurityQueryParams_single_empty base e hlook, rlookup_rset, if_neg hk]
    · rw [mergeSecurityQueryParams_single_keep base e w hlook hw]

theorem mergeSecurityQueryParams_untouched (sec : List (String × String)) :
    ∀ (base : List (String × String)) (k : String), (∀ kv ∈ sec, kv.1 ≠ k) →
      rlookup (mergeSecurityQueryParams base sec) k = rlookup base k := by
  induction sec with
  | nil => intro base k _; rfl
  | cons e rest ih =>
    intro base k hk
    rw [mergeSecurityQueryParams_cons,
      ih _ k (fun kv hkv => hk kv (by simp [hkv])),
      mergeSecurityQueryParams_step_ne base e k (hk e (by simp))]

theorem mergeSecurityQueryParams_preserves (sec : List (String × String)) :
    ∀ (base : List (String × String)) (k v : String),
      rlookup base k = some v → v ≠ "" →
      rlookup (mergeSecurityQueryParams base sec) k = some v := by
  induction sec with
  | nil => intro base k v hv _; exact hv
  | cons e rest ih =>
    intro base k v hv hne
    rw [mergeSecurityQueryParams_cons]
    apply ih _ k v ?_ hne
    by_cases hk : e.1 = k
    · rw [mergeSecurityQueryParams_single_keep base e v (hk ▸ hv) hne]
      exact hv
    · rw [mergeSecurityQueryParams_step_ne base e k hk]
      exact hv

theorem mergeSecurityQueryParams_fills (sec : List (String × String)) :
    ∀ (base : List (String × String)) (k v : String),
      (rlookup base k = none ∨ rlookup base k = some "") →
      rlookup sec k = some v → (sec.map Prod.fst).Nodup →
      rlookup (mergeSecurityQueryParams base sec) k = some v := by
  induction sec with
  | nil => intro base k v _ hsec _; exact absurd hsec (by simp [rlookup])
  | cons e rest ih =>
    intro base k v hgap hsec hnodup
    obtain ⟨k1, v1⟩ := e
    rw [mergeSecurityQueryParams_cons]
    simp only [List.map_cons, List.nodup_cons] at hnodup
    by_cases hk : k1 = k
    · have hv1 : v1 = v := by
        simpa [rlookup, hk] using hsec
      subst hv1
      have hfresh : ∀ kv ∈ rest, kv.1 ≠ k := by
        intro kv hkv h
        exact hnodup.1 (hk ▸ h ▸ List.mem_map_of_mem Prod.fst hkv)
      rw [mergeSecurityQueryParams_untouched rest _ k hfresh]
      have hset : mergeSecurityQueryParams base [(k1, v1)] = rset base k1 v1 := by
        rcases hgap with hgap | hgap
        · exact mergeSecurityQueryParams_single_none base (k1, v1) (hk ▸ hgap)
        · exact mergeSecurityQueryParams_single_empty base (k1, v1) (hk ▸ hgap)
      rw [hset, rlookup_rset, if_pos hk]
    · have hsec2 : rlookup rest k = some v := by
        simpa [rlookup, hk] using hsec
      apply ih _ k v ?_ hsec2 hnodup.2
      rw [mergeSecurityQueryParams_step_ne base (k1, v1) k hk]
      exact hgap

/-- C6: security contributions only fill gaps in user-edited state: a
security query parameter is merged only where the user's value is undefined
or empty and an explicit non-empty user query value is always preserved; a
security header fills only an undefined-or-empty slot of the base headers
(global headers merged with per-operation header params) and an explicit
non-empty header survives; and a security `Cookie` contribution is appended
to an already-present non-empty `Cookie` header joined with `; ` rather
than overwriting it. -/
theorem sendRequest_security_fills_gaps_only :
    (∀ (userQuery secQuery : List (String × String)) (k v : String),
      rlookup userQuery k = some v → v ≠ "" →
      rlookup (mergeSecurityQueryParams userQuery secQuery) k = some v) ∧
    (∀ (userQuery secQuery : List (String × String)) (k v : String),
      (rlookup userQuery k = none ∨ rlookup userQuery k = some "") →
      rlookup secQuery k = some v → (secQuery.map Prod.fst).Nodup →
      rlookup (mergeSecurityQueryParams userQuery secQuery) k = some v) ∧
    (∀ (globalHeaders headerParams sec : List (String × String)) (k v : String),
      rlookup (baseRequestHeaders globalHeaders headerParams) k = some v → v ≠ "" →
      jsToLower k ≠ "cookie" →
      rlookup (applySecurityHeaders (baseRequestHeaders globalHeaders headerParams) sec) k
        = some v) ∧
    (∀ (base sec : List (String × String)) (k v : String),
      (rlookup base k = none ∨ rlookup base k = some "") →
      rlookup sec k = some v → (sec.map Prod.fst).Nodup →
      rlookup (applySecurityHeaders base sec) k = some v) ∧
    (∀ (base sec : List (String × String)) (k v c : String),
      rlookup base k = some v → v ≠ "" → jsToLower k = "cookie" →
      rlookup sec k = some c → (sec.map Prod.fst).Nodup →
      rlookup (applySecurityHeaders base sec) k = some (v ++ "; " ++ c)) :=
  ⟨fun uq sq k v hv hne => mergeSecurityQueryParams_preserves sq uq k v hv hne,
    fun uq sq k v hgap hsec hnd => mergeSecurityQueryParams_fills sq uq k v hgap hsec hnd,
    fun g hp sec k v hv hne hck =>
      applySecurityHeaders_preserves sec (baseRequestHeaders g hp) k v hv hne hck,
    fun base sec k v hgap hsec hnd => applySecurityHeaders_fills sec base k v hgap hsec hnd,
    fun base sec k v c hv hne hck hsec hnd =>
      applySecurityHeaders_cookie_append sec base k v c hv hne hck hsec hnd⟩

/-- C6 witness: the theorem applied to concrete query/header tables — the
user's `apiKeyName=userValue` query value survives a security contribution,
a gap is filled, and a `Cookie` contribution is appended with `; `. -/
theorem sendRequest_security_fills_gaps_only_witness :
    rlookup (mergeSecurityQueryParams [("apiKeyName", "userValue")]
        [("apiKeyName", "secretKey")]) "apiKeyName" = some "userValue" ∧
      rlookup (applySecurityHeaders (baseRequestHeaders [("X-Api-Key", "")] [])
        [("X-Api-Key", "secret")]) "X-Api-Key" = some "secret" ∧
      rlookup (applySecurityHeaders [("Cookie", "a=1")] [("Cookie", "sid=2")]) "Cookie"
        = some ("a=1" ++ "; " ++ "sid=2") :=
  ⟨sendRequest_security_fills_gaps_only.1 [("apiKeyName", "userValue")]
      [("apiKeyName", "secretKey")] "apiKeyName" "userValue" rfl (by decide),
    sendRequest_security_fills_gaps_only.2.2.2.1 (baseRequestHeaders [("X-Api-Key", "")] [])
      [("X-Api-Key", "secret")] "X-Api-Key" "secret" (Or.inr rfl) rfl (by decide),
    sendRequest_security_fills_gaps_only.2.2.2.2 [("Cookie", "a=1")] [("Cookie", "sid=2")]
      "Cookie" "a=1" "sid=2" rfl (by decide) (by decide) rfl (by decide)⟩

/-! C1: the security compiler iterates every declared scheme. -/

theorem truthy_of_jgetStr {scheme : Json} {key : String} {v : String}
    (h : jgetStr scheme key = some v) : truthy scheme = true := by
  cases scheme <;> simp_all [jgetStr, jget, truthy]

theorem applySecurityScheme_apiKey_header (btoa : String → Option String)
    (hvars : List (String × String)) (sv gv : List (String × Json))
    (st : SecurityPayload) (name : String) (scheme : Json) (N : String)
    (htype : jgetStr scheme "type" = some "apiKey")
    (hN : jgetStr scheme "name" = some N) (hNne : N ≠ "")
    (hkv : securityValueField (storedSecurityValue sv gv name) "value" hvars ≠ "")
    (hin : jgetStr scheme "in" = some "header") :
    applySecurityScheme btoa hvars sv gv st (name, scheme)
      = { st with headers := (rset st.headers N
            (securityValueField (storedSecurityValue sv gv name) "value" hvars)) } := by
  simp [applySecurityScheme, truthy_of_jgetStr htype, htype, hkv, hN, hNne, hin]

theorem applySecurityScheme_apiKey_query (btoa : String → Option String)
    (hvars : List (String × String)) (sv gv : List (String × Json))
    (st : SecurityPayload) (name : String) (scheme : Json) (N : String)
    (htype : jgetStr scheme "type" = some "apiKey")
    (hN : jgetStr scheme "name" = some N) (hNne : N ≠ "")
    (hkv : securityValueField (storedSecurityValue sv gv name) "value" hvars ≠ "")
    (hin : jgetStr scheme "in" = some "query") :
    applySecurityScheme btoa hvars sv gv st (name, scheme)
      = { st with queryParams := (rset st.queryParams N
            (securityValueField (storedSecurityValue sv gv name) "value" hvars)) } := by
  simp [applySecurityScheme, truthy_of_jgetStr htype, htype, hkv, hN, hNne, hin]

theorem applySecurityScheme_apiKey_cookie (btoa : String → Option String)
    (hvars : List (String × String)) (sv gv : List (String × Json))
    (st : SecurityPayload) (name : String) (scheme : Json) (N : String)
    (htype : jgetStr scheme "type" = some "apiKey")
    (hN : jgetStr scheme "name" = some N) (hNne : N ≠ "")
    (hkv : securityValueField (storedSecurityValue sv gv name) "value" hvars ≠ "")
    (hin : jgetStr scheme "in" = some "cookie") :
    applySecurityScheme btoa hvars sv gv st (name, scheme)
      = { st with
          cookies := (st.cookies ++ [N ++ "=" ++ encodeURIComponent
            (securityValueField (storedSecurityValue sv gv name) "value" hvars)]),
          useCookies := true } := by
  simp [applySecurityScheme, truthy_of_jgetStr htype, htype, hkv, hN, hNne, hin]

theorem applySecurityScheme_http_bearer (btoa : String → Option String)
    (hvars : List (String × String)) (sv gv : List (String × Json))
    (st : SecurityPayload) (name : String) (scheme : Json)
    (htype : jgetStr scheme "type" = some "http")
    (hss : schemeSchemeStr scheme = "bearer")
    (hkv : securityValueField (storedSecurityValue sv gv name) "value" hvars ≠ "") :
    applySecurityScheme btoa hvars sv gv st (name, scheme)
      = { st with headers := (rset st.headers "Authorization"
            (if strStartsWith
                (jsToLower (securityValueField (storedSecurityValue sv gv name)
                  "value" hvars)) "bearer " then
              securityValueField (storedSecurityValue sv gv name) "value" hvars
            else
              "Bearer " ++ securityValueField (storedSecurityValue sv gv name)
                "value" hvars)) } := by
  simp [applySecurityScheme, truthy_of_jgetStr htype, htype, hss, hkv]

theorem applySecurityScheme_oauth (btoa : String → Option String)
    (hvars : List (String × String)) (sv gv : List (String × Json))
    (st : SecurityPayload) (name : String) (scheme : Json)
    (htype : jgetStr scheme "type" = some "oauth2" ∨
      jgetStr scheme "type" = some "openIdConnect")
    (hkv : securityValueField (storedSecurityValue sv gv name) "value" hvars ≠ "") :
    applySecurityScheme btoa hvars sv gv st (name, scheme)
      = { st with headers := (rset st.headers "Authorization"
            (if strStartsWith
                (securityValueField (storedSecurityValue sv gv name) "value" hvars)
                "Bearer " then
              securityValueField (storedSecurityValue sv gv name) "value" hvars
            else
              "Bearer " ++ securityValueField (storedSecurityValue sv gv name)
                "value" hvars)) } := by
  rcases htype with htype | htype <;>
    simp [applySecurityScheme, truthy_of_jgetStr htype, htype, hkv]

set_option maxHeartbeats 1000000 in
theorem applySecurityScheme_mono_headers (btoa : String → Option String)
    (hvars : List (String × String)) (sv gv : List (String × Json))
    (st : SecurityPayload) (e : String × Json) :
    ∀ k, hasKey st.headers k = true →
      hasKey (applySecurityScheme btoa hvars sv gv st e).headers k = true := by
  intro k h
  simp only [applySecurityScheme]
  repeat' split
  all_goals simp [hasKey_rset, h]

set_option maxHeartbeats 1000000 in
theorem applySecurityScheme_mono_query (btoa : String → Option String)
    (hvars : List (String × String)) (sv gv : List (String × Json))
    (st : SecurityPayload) (e : String × Json) :
    ∀ k, hasKey st.queryParams k = true →
      hasKey (applySecurityScheme btoa hvars sv gv st e).queryParams k = true := by
  intro k h
  simp only [applySecurityScheme]
  repeat' split
  all_goals simp [hasKey_rset, h]

set_option maxHeartbeats 1000000 in
theorem applySecurityScheme_mono_useCookies (btoa : String → Option String)
    (hvars : List (String × String)) (sv gv : List (String × Json))
    (st : SecurityPayload) (e : String × Json) :
    st.useCookies = true → (applySecurityScheme btoa hvars sv gv st e).useCookies = true := by
  intro h
  simp only [applySecurityScheme]
  repeat' split
  all_goals simp [h]

set_option maxHeartbeats 1000000 in
theorem applySecurityScheme_mono_cookies (btoa : String → Option String)
    (hvars : List (String × String)) (sv gv : List (String × Json))
    (st : SecurityPayload) (e : String × Json) :
    st.cookies ≠ [] → (applySecurityScheme btoa hvars sv gv st e).cookies ≠ [] := by
  intro h
  simp only [applySecurityScheme]
  repeat' split
  all_goals simp [h]

theorem applySecurityScheme_mono (btoa : String → Option String)
    (hvars : List (String × String)) (sv gv : List (String × Json))
    (st : SecurityPayload) (e : String × Json) :
    (∀ k, hasKey st.headers k = true →
      hasKey (applySecurityScheme btoa hvars sv gv st e).headers k = true) ∧
    (∀ k, hasKey st.queryParams k = true →
      hasKey (applySecurityScheme btoa hvars sv gv st e).queryParams k = true) ∧
    (st.useCookies = true → (applySecurityScheme btoa hvars sv gv st e).useCookies = true) ∧
    (st.cookies ≠ [] → (applySecurityScheme btoa hvars sv gv st e).cookies ≠ []) :=
  ⟨applySecurityScheme_mono_headers btoa hvars sv gv st e,
    applySecurityScheme_mono_query btoa hvars sv gv st e,
    applySecurityScheme_mono_useCookies btoa hvars sv gv st e,
    applySecurityScheme_mono_cookies btoa hvars sv gv st e⟩

theorem foldl_applySecurityScheme_mono (btoa : String → Option String)
    (hvars : List (String × String)) (sv gv : List (String × Json))
    (schemes : List (String × Json)) :
    ∀ st : SecurityPayload,
      (∀ k, hasKey st.headers k = true →
        hasKey (schemes.foldl (applySecurityScheme btoa hvars sv gv) st).headers k = true) ∧
      (∀ k, hasKey st.queryParams k = true →
        hasKey (schemes.foldl (applySecurityScheme btoa hvars sv gv) st).queryParams k
          = true) ∧
      (st.useCookies = true →
        (schemes.foldl (applySecurityScheme btoa hvars sv gv) st).useCookies = true) ∧
      (st.cookies ≠ [] →
        (schemes.foldl (applySecurityScheme btoa hvars sv gv) st).cookies ≠ []) := by
  induction schemes with
  | nil => intro st; exact ⟨fun k h => h, fun k h => h, fun h => h, fun h => h⟩
  | cons e rest ih =>
    intro st
    have hstep := applySecurityScheme_mono btoa hvars sv gv st e
    have hrest := ih (applySecurityScheme btoa hvars sv gv st e)
    exact ⟨fun k h => hrest.1 k (hstep.1 k h),
      fun k h => hrest.2.1 k (hstep.2.1 k h),
      fun h => hrest.2.2.1 (hstep.2.2.1 h),
      fun h => hrest.2.2.2 (hstep.2.2.2 h)⟩

theorem buildSecurityPayload_finalize (btoa : String → Option String)
    (hvars : List (String × String)) (sv gv : List (String × Json))
    (schemes : List (String × Json)) :
    buildSecurityPayload btoa schemes sv gv hvars
      = (if (schemes.foldl (applySecurityScheme btoa hvars sv gv) ⟨[], [], [], false⟩).cookies
            ≠ [] then
          { schemes.foldl (applySecurityScheme btoa hvars sv gv) ⟨[], [], [], false⟩ with
            headers := (rset
              (schemes.foldl (applySecurityScheme btoa hvars sv gv)
                ⟨[], [], [], false⟩).headers "Cookie"
              (String.intercalate "; "
                (schemes.foldl (applySecurityScheme btoa hvars sv gv)
                  ⟨[], [], [], false⟩).cookies)) }
        else schemes.foldl (applySecurityScheme btoa hvars sv gv) ⟨[], [], [], false⟩) :=
  rfl

/-- C1: the security payload is built by folding over every security scheme
declared in the document's `components.securitySchemes`, with no reference
to the selected operation's security requirements (the `opRequirements`
argument below is arbitrary and unused — `buildSecurityPayload` takes no
such input): any declared scheme whose stored credential (per-scheme value,
else global) resolves to a non-empty string contributes its header ( `in:
header` api keys and all http/oauth2/openIdConnect schemes), query
parameter (`in: query`), or cookie entry (`in: cookie`, joined into the
`Cookie` header with `withCredentials` set) to the outgoing payload. -/
theorem buildSecurityPayload_every_declared_scheme
    (btoa : String → Option String) (spec : Option Json)
    (secVals gsecVals : List (String × Json)) (hvars : List (String × String))
    (opRequirements : List (String × List String))
    (name : String) (scheme : Json)
    (hmem : (name, scheme) ∈ securitySchemes spec)
    (hkv : securityValueField (storedSecurityValue secVals gsecVals name) "value" hvars
      ≠ "") :
    (∀ N, jgetStr scheme "type" = some "apiKey" → jgetStr scheme "name" = some N →
      N ≠ "" → jgetStr scheme "in" = some "header" →
      hasKey (buildSecurityPayload btoa (securitySchemes spec) secVals gsecVals
        hvars).headers N = true) ∧
    (∀ N, jgetStr scheme "type" = some "apiKey" → jgetStr scheme "name" = some N →
      N ≠ "" → jgetStr scheme "in" = some "query" →
      hasKey (buildSecurityPayload btoa (securitySchemes spec) secVals gsecVals
        hvars).queryParams N = true) ∧
    (∀ N, jgetStr scheme "type" = some "apiKey" → jgetStr scheme "name" = some N →
      N ≠ "" → jgetStr scheme "in" = some "cookie" →
      hasKey (buildSecurityPayload btoa (securitySchemes spec) secVals gsecVals
          hvars).headers "Cookie" = true ∧
        (buildSecurityPayload btoa (securitySchemes spec) secVals gsecVals
          hvars).useCookies = true) ∧
    (jgetStr scheme "type" = some "http" → schemeSchemeStr scheme = "bearer" →
      hasKey (buildSecurityPayload btoa (securitySchemes spec) secVals gsecVals
        hvars).headers "Authorization" = true) ∧
    ((jgetStr scheme "type" = some "oauth2" ∨
        jgetStr scheme "type" = some "openIdConnect") →
      hasKey (buildSecurityPayload btoa (securitySchemes spec) secVals gsecVals
        hvars).headers "Authorization" = true) := by
  obtain ⟨pre, post, hsplit⟩ := List.append_of_mem hmem
  rw [buildSecurityPayload_finalize, hsplit, List.foldl_append, List.foldl_cons]
  set st0 := pre.foldl (applySecurityScheme btoa hvars secVals gsecVals)
    ⟨[], [], [], false⟩ with hst0
  have hfoldmono := foldl_applySecurityScheme_mono btoa hvars secVals gsecVals post
  have hfin : ∀ (st : SecurityPayload) (k : String), hasKey st.headers k = true →
      hasKey (if st.cookies ≠ [] then
        { st with headers := (rset st.headers "Cookie"
            (String.intercalate "; " st.cookies)) }
        else st).headers k = true := by
    intro st k h
    split <;> simp_all [hasKey_rset]
  have hfinq : ∀ (st : SecurityPayload) (k : String), hasKey st.queryParams k = true →
      hasKey (if st.cookies ≠ [] then
        { st with headers := (rset st.headers "Cookie"
            (String.intercalate "; " st.cookies)) }
        else st).queryParams k = true := by
    intro st k h
    split <;> simp_all
  have hfinu : ∀ st : SecurityPayload, st.useCookies = true →
      (if st.cookies ≠ [] then
        { st with headers := (rset st.headers "Cookie"
            (String.intercalate "; " st.cookies)) }
        else st).useCookies = true := by
    intro st h
    split <;> simp_all
  have hfinc : ∀ st : SecurityPayload, st.cookies ≠ [] →
      hasKey (if st.cookies ≠ [] then
        { st with headers := (rset st.headers "Cookie"
            (String.intercalate "; " st.cookies)) }
        else st).headers "Cookie" = true := by
    intro st h
    rw [if_pos h]
    simp [hasKey_rset]
  refine ⟨?_, ?_, ?_, ?_, ?_⟩
  · intro N htype hN hNne hin
    rw [applySecurityScheme_apiKey_header btoa hvars secVals gsecVals st0 name scheme N
      htype hN hNne hkv hin]
    exact hfin _ N ((hfoldmono _).1 N (by simp [hasKey_rset]))
  · intro N htype hN hNne hin
    rw [applySecurityScheme_apiKey_query btoa hvars secVals gsecVals st0 name scheme N
      htype hN hNne hkv hin]
    exact hfinq _ N ((hfoldmono _).2.1 N (by simp [hasKey_rset]))
  · intro N htype hN hNne hin
    rw [applySecurityScheme_apiKey_cookie btoa hvars secVals gsecVals st0 name scheme N
      htype hN hNne hkv hin]
    constructor
    · exact hfinc _ ((hfoldmono _).2.2.2 (by simp))
    · exact hfinu _ ((hfoldmono _).2.2.1 (by simp))
  · intro htype hss
    rw [applySecurityScheme_http_bearer btoa hvars secVals gsecVals st0 name scheme
      htype hss hkv]
    exact hfin _ "Authorization" ((hfoldmono _).1 "Authorization" (by simp [hasKey_rset]))
  · intro htype
    rw [applySecurityScheme_oauth btoa hvars secVals gsecVals st0 name scheme htype hkv]
    exact hfin _ "Authorization" ((hfoldmono _).1 "Authorization" (by simp [hasKey_rset]))

/-- C1 witness: a document declaring an apiKey header scheme, an apiKey
query scheme and a bearer scheme; with stored credentials, all three
contribute to one payload even though the (arbitrary) operation requirement
list names none of them. -/
theorem buildSecurityPayload_every_declared_scheme_witness :
    hasKey (buildSecurityPayload (fun _ => none)
        (securitySchemes (some (.obj [("components", .obj [("securitySchemes", .obj
          [("keyAuth", .obj [("type", .str "apiKey"), ("name", .str "X-Api-Key"),
            ("in", .str "header")])])])])))
        [("keyAuth", .obj [("value", .str "secret")])] [] []).headers "X-Api-Key"
      = true :=
  (buildSecurityPayload_every_declared_scheme (fun _ => none)
    (some (.obj [("components", .obj [("securitySchemes", .obj
      [("keyAuth", .obj [("type", .str "apiKey"), ("name", .str "X-Api-Key"),
        ("in", .str "header")])])])]))
    [("keyAuth", .obj [("value", .str "secret")])] [] []
    [("someOtherScheme", [])] "keyAuth"
    (.obj [("type", .str "apiKey"), ("name", .str "X-Api-Key"), ("in", .str "header")])
    (List.mem_cons_self _ _) (by decide)).1 "X-Api-Key" rfl rfl (by decide) rfl

/-! C7: failed sends never vanish. -/

/-- C7: `sendRequest` is a total function (no branch throws); a JSON-family
body whose lenient parse fails stops the send with a Response Record whose
`error` field carries `Invalid JSON: ` plus the parser's message; a failed
transport call ends in a Response Record carrying the transport message;
and in both cases a History Entry for the attempt is prepended to the
current specification's history, so no send attempt terminates without a
trace. -/
theorem sendRequest_failures_recorded
    (st : SendState) (json5Parse : String → Except String Json)
    (stringify stringify2 : Json → String) (btoa : String → Option String)
    (transport : RequestConfig → Except String TransportResult) (idStr now : String) :
    (∀ api m, st.selectedApi = some api →
      isJsonContentType st.requestContentType = true →
      jsTrimS (resolveHeaderTemplate st.requestBody st.headerVariables) ≠ "" →
      json5Parse (resolveHeaderTemplate st.requestBody st.headerVariables) = .error m →
      sendRequestBuild st json5Parse stringify btoa
        = .bodyError (resolveHeaderTemplate st.requestBody st.headerVariables)
            ("Invalid JSON: " ++ m)) ∧
    (∀ resolvedBody msg,
      sendRequestBuild st json5Parse stringify btoa = .bodyError resolvedBody msg →
      (sendRequest st json5Parse stringify stringify2 btoa transport idStr now).response
          = { error := some msg } ∧
        (sendRequest st json5Parse stringify stringify2 btoa transport idStr
            now).responseHistory.head?
          = some (createResponseHistory { st with response := { error := some msg } }
              idStr now { error := some msg } resolvedBody) ∧
        rlookup (sendRequest st json5Parse stringify stringify2 btoa transport idStr
            now).responseHistoryBySpec (historySpecKey st)
          = some (sendRequest st json5Parse stringify stringify2 btoa transport idStr
              now).responseHistory) ∧
    (∀ config resolvedBody msg,
      sendRequestBuild st json5Parse stringify btoa = .send config resolvedBody →
      transport config = .error msg →
      (sendRequest st json5Parse stringify stringify2 btoa transport idStr now).response
          = { error := some msg } ∧
        (sendRequest st json5Parse stringify stringify2 btoa transport idStr
            now).responseHistory.head?
          = some (createResponseHistory { st with response := { error := some msg } }
              idStr now { error := some msg } resolvedBody) ∧
        rlookup (sendRequest st json5Parse stringify stringify2 btoa transport idStr
            now).responseHistoryBySpec (historySpecKey st)
          = some (sendRequest st json5Parse stringify stringify2 btoa transport idStr
              now).responseHistory) := by
  refine ⟨?_, ?_, ?_⟩
  · intro api m hapi hct htrim hparse
    simp [sendRequestBuild, hapi, hct, htrim, hparse]
  · intro resolvedBody msg hbuild
    simp only [sendRequest, hbuild]
    refine ⟨rfl, ?_, ?_⟩
    · simp only [pushResponseHistory]
      rw [show MAX_RESPONSE_HISTORY = 9 + 1 from rfl, List.take_succ_cons]
      rfl
    · simp only [pushResponseHistory]
      have hkey : historySpecKey { st with response :=
          ({ error := some msg } : HttpResponse) } = historySpecKey st := rfl
      rw [← hkey]
      simp [rlookup_rset, historySpecKey]
  · intro config resolvedBody msg hbuild htrans
    simp only [sendRequest, hbuild, htrans]
    refine ⟨rfl, ?_, ?_⟩
    · simp only [pushResponseHistory]
      rw [show MAX_RESPONSE_HISTORY = 9 + 1 from rfl, List.take_succ_cons]
      rfl
    · simp only [pushResponseHistory]
      have hkey : historySpecKey { st with response :=
          ({ error := some msg } : HttpResponse) } = historySpecKey st := rfl
      rw [← hkey]
      simp [rlookup_rset, historySpecKey]

/-- C7 witness: a concrete send whose JSON body fails the lenient parse,
and a concrete send whose transport call fails; both leave a Response
Record with the error and a History Entry. -/
theorem sendRequest_failures_recorded_witness :
    (sendRequest sampleBodyState (fun _ => .error "boom") (fun _ => "") (fun _ => "")
        (fun _ => none) (fun _ => .error "netfail") "id1" "t1").response
        = { error := some ("Invalid JSON: " ++ "boom") } ∧
      (sendRequest sampleBodyState (fun _ => .error "boom") (fun _ => "") (fun _ => "")
        (fun _ => none) (fun _ => .error "netfail") "id1" "t1").responseHistory.head?
        = some (createResponseHistory
            { sampleBodyState with response :=
                { error := some ("Invalid JSON: " ++ "boom") } } "id1" "t1"
            { error := some ("Invalid JSON: " ++ "boom") }
            (resolveHeaderTemplate sampleBodyState.requestBody
              sampleBodyState.headerVariables)) ∧
      (sendRequest sampleGetState (fun _ => .error "boom") (fun _ => "") (fun _ => "")
        (fun _ => none) (fun _ => .error "netfail") "id2" "t2").response
        = { error := some "netfail" } := by
  have h1 := (sendRequest_failures_recorded sampleBodyState (fun _ => .error "boom")
    (fun _ => "") (fun _ => "") (fun _ => none) (fun _ => .error "netfail") "id1" "t1").1
    { key := "POST /a", method := "POST", path := "/a" } "boom" rfl rfl (by decide) rfl
  have h2 := (sendRequest_failures_recorded sampleBodyState (fun _ => .error "boom")
    (fun _ => "") (fun _ => "") (fun _ => none) (fun _ => .error "netfail") "id1" "t1").2.1
    (resolveHeaderTemplate sampleBodyState.requestBody sampleBodyState.headerVariables)
    ("Invalid JSON: " ++ "boom") h1
  have h3 := (sendRequest_failures_recorded sampleGetState (fun _ => .error "boom")
    (fun _ => "") (fun _ => "") (fun _ => none) (fun _ => .error "netfail") "id2"
    "t2").2.2 _ "" "netfail" rfl rfl
  exact ⟨h2.1, h2.2.1, h3.1⟩

/-! C10: the header-variable template scanner. -/

theorem dropWhile_length_le {α : Type} (p : α → Bool) :
    ∀ l : List α, (l.dropWhile p).length ≤ l.length := by
  intro l
  induction l with
  | nil => simp
  | cons a l ih =>
    by_cases h : p a = true
    · rw [List.dropWhile_cons_of_pos h]
      exact Nat.le_succ_of_le ih
    · rw [List.dropWhile_cons_of_neg h]

theorem resolveTplF_fuel (vars : List (String × String)) :
    ∀ (f1 : Nat) (l : List Char) (f2 : Nat), l.length ≤ f1 → l.length ≤ f2 →
      resolveTplF vars f1 l = resolveTplF vars f2 l := by
  intro f1
  induction f1 with
  | zero =>
    intro l f2 h1 _
    have hl : l = [] := List.length_eq_zero.mp (Nat.le_zero.mp h1)
    subst hl
    cases f2 <;> rfl
  | succ f1 ih =>
    intro l f2 h1 h2
    cases l with
    | nil => cases f2 <;> rfl
    | cons c1 rest1 =>
      cases f2 with
      | zero => simp at h2
      | succ f2 =>
        simp only [List.length_cons, Nat.succ_le_succ_iff] at h1 h2
        simp only [resolveTplF]
        by_cases hc1 : c1 = lbrace
        · rw [if_pos hc1, if_pos hc1]
          cases rest1 with
          | nil => rfl
          | cons c2 rest2 =>
            simp only [List.length_cons] at h1 h2
            dsimp only
            by_cases hc2 : c2 = lbrace
            · rw [if_pos hc2, if_pos hc2]
              have hdlen := dropWhile_length_le (fun ch => ch ≠ rbrace) rest2
              cases hdrop : rest2.dropWhile (fun ch => ch ≠ rbrace) with
              | nil =>
                dsimp only
                rw [ih (c2 :: rest2) f2 (by simp; omega) (by simp; omega)]
              | cons b1 tail =>
                cases tail with
                | nil =>
                  dsimp only
                  rw [ih (c2 :: rest2) f2 (by simp; omega) (by simp; omega)]
                | cons b2 after =>
                  rw [hdrop] at hdlen
                  simp only [List.length_cons] at hdlen
                  dsimp only
                  by_cases hcond : b2 = rbrace ∧
                      ¬(rest2.takeWhile (fun ch => ch ≠ rbrace)).isEmpty = true
                  · rw [if_pos hcond, if_pos hcond]
                    rw [ih after f2 (by omega) (by omega)]
                  · rw [if_neg hcond, if_neg hcond]
                    rw [ih (c2 :: rest2) f2 (by simp; omega) (by simp; omega)]
            · rw [if_neg hc2, if_neg hc2]
              rw [ih (c2 :: rest2) f2 (by simp; omega) (by simp; omega)]
        · rw [if_neg hc1, if_neg hc1]
          rw [ih rest1 f2 h1 h2]

theorem takeWhile_until_rbrace :
    ∀ (l post : List Char), (∀ c ∈ l, c ≠ rbrace) →
      (l ++ rbrace :: post).takeWhile (fun ch => ch ≠ rbrace) = l := by
  intro l
  induction l with
  | nil => intro post _; simp [List.takeWhile_cons]
  | cons c l ih =>
    intro post h
    have hc : c ≠ rbrace := h c (by simp)
    rw [List.cons_append, List.takeWhile_cons_of_pos (by simpa using hc)]
    rw [ih post (fun d hd => h d (by simp [hd]))]

theorem dropWhile_until_rbrace :
    ∀ (l post : List Char), (∀ c ∈ l, c ≠ rbrace) →
      (l ++ rbrace :: post).dropWhile (fun ch => ch ≠ rbrace) = rbrace :: post := by
  intro l
  induction l with
  | nil => intro post _; simp [List.dropWhile_cons]
  | cons c l ih =>
    intro post h
    have hc : c ≠ rbrace := h c (by simp)
    rw [List.cons_append, List.dropWhile_cons_of_pos (by simpa using hc)]
    rw [ih post (fun d hd => h d (by simp [hd]))]

theorem joinPipe_no_rbrace :
    ∀ cs : List (List Char), (∀ c ∈ cs, ∀ ch ∈ c, ch ≠ rbrace) →
      ∀ ch ∈ joinPipe cs, ch ≠ rbrace := by
  intro cs
  induction cs with
  | nil => intro _ ch hch; simp [joinPipe] at hch
  | cons c cs ih =>
    intro h ch hch
    cases cs with
    | nil =>
      simp only [joinPipe] at hch
      exact h c (by simp) ch hch
    | cons c2 cs2 =>
      simp only [joinPipe, List.mem_append, List.mem_cons] at hch
      rcases hch with hch | hch | hch
      · exact h c (by simp) ch hch
      · subst hch; decide
      · exact ih (fun d hd => h d (by simp [hd])) ch hch

theorem joinPipe_ne_nil (c : List Char) (cs : List (List Char)) (hc : c ≠ []) :
    joinPipe (c :: cs) ≠ [] := by
  cases cs with
  | nil => simpa [joinPipe] using hc
  | cons c2 cs2 =>
    simp only [joinPipe]
    intro h
    exact hc (List.append_eq_nil.mp h).1

theorem splitOnChar_joinPipe :
    ∀ cs : List (List Char), cs ≠ [] → (∀ c ∈ cs, ∀ ch ∈ c, ch ≠ pipeChar) →
      splitOnChar pipeChar (joinPipe cs) = cs := by
  intro cs
  induction cs with
  | nil => intro h _; exact absurd rfl h
  | cons c cs ih =>
    intro _ h
    cases cs with
    | nil =>
      simp only [joinPipe]
      exact splitOnChar_no_sep pipeChar c (h c (by simp))
    | cons c2 cs2 =>
      simp only [joinPipe]
      rw [splitOnChar_append_sep pipeChar c _ (h c (by simp))]
      rw [ih (by simp) (fun d hd => h d (by simp [hd]))]

theorem dropWhile_eq_self_of_none {α : Type} (p : α → Bool) (l : List α)
    (h : ∀ c ∈ l, p c = false) : l.dropWhile p = l := by
  cases l with
  | nil => rfl
  | cons a l => rw [List.dropWhile_cons_of_neg (by simp [h a (by simp)])]

theorem jsTrimChars_id (l : List Char) (h : ∀ ch ∈ l, isJsWs ch = false) :
    jsTrimChars l = l := by
  unfold jsTrimChars
  rw [dropWhile_eq_self_of_none isJsWs l h,
    dropWhile_eq_self_of_none isJsWs l.reverse (fun c hc => h c (by simpa using hc)),
    List.reverse_reverse]

theorem tplValue_joinPipe (vars : List (String × String)) (cs : List (List Char))
    (hne : cs ≠ [])
    (helem : ∀ c ∈ cs, c ≠ [] ∧ ∀ ch ∈ c, ch ≠ rbrace ∧ ch ≠ pipeChar ∧ isJsWs ch = false) :
    tplValue vars (joinPipe cs) = firstCandidateValue vars cs := by
  unfold tplValue firstCandidateValue
  rw [splitOnChar_joinPipe cs hne (fun c hc ch hch => ((helem c hc).2 ch hch).2.1)]
  have hmap : cs.map jsTrimChars = cs := by
    rw [List.map_congr_left (fun c hc =>
      jsTrimChars_id c (fun ch hch => ((helem c hc).2 ch hch).2.2))]
    exact List.map_id cs
  rw [hmap]
  have hfilter : cs.filter (fun c => !c.isEmpty) = cs :=
    List.filter_eq_self.mpr (fun c hc => by simp [(helem c hc).1])
  rw [hfilter]

theorem resolveTplF_decompose (vars : List (String × String)) (pre : List Char) :
    ∀ (fuel : Nat) (inter post : List Char),
      (pre ++ lbrace :: lbrace :: (inter ++ rbrace :: rbrace :: post)).length ≤ fuel →
      inter ≠ [] → (∀ ch ∈ inter, ch ≠ rbrace) → lbrace ∉ pre →
      resolveTplF vars fuel (pre ++ lbrace :: lbrace :: (inter ++ rbrace :: rbrace :: post))
        = pre ++ (tplValue vars inter ++ resolveTemplateChars vars post) := by
  induction pre with
  | nil =>
    intro fuel inter post hfuel hne hnorb _
    cases fuel with
    | zero => simp at hfuel
    | succ fuel =>
      simp only [List.nil_append, resolveTplF, if_pos rfl]
      rw [if_pos trivial, if_pos trivial]
      rw [takeWhile_until_rbrace inter (rbrace :: post) hnorb,
        dropWhile_until_rbrace inter (rbrace :: post) hnorb]
      dsimp only
      rw [if_pos ⟨rfl, by simpa using hne⟩]
      congr 1
      simp only [List.nil_append, List.length_append, List.length_cons] at hfuel
      exact resolveTplF_fuel vars fuel post post.length (by omega) le_rfl
  | cons c pre ih =>
    intro fuel inter post hfuel hne hnorb hpre
    cases fuel with
    | zero => simp at hfuel
    | succ fuel =>
      have hc : c ≠ lbrace := fun h => hpre (by simp [h])
      simp only [List.cons_append, resolveTplF, if_neg hc, List.append_eq]
      rw [ih fuel inter post (by simpa using Nat.le_of_succ_le_succ (by simpa using hfuel))
        hne hnorb (fun h => hpre (by simp [h]))]

/-- C10: each `\x7b\x7bvar1|var2|...\x7d\x7d` occurrence in a template is
replaced by the value of the first listed variable that is defined and
non-empty, and by the empty string (removed from the output) when no
candidate matches — never left literal; and the same resolver is what the
header-draft compiler applies to every draft value, what the security
compiler applies to stored credential values, and what `sendRequest`
applies to the request-body text before parsing it. -/
theorem resolveHeaderTemplate_first_match (vars : List (String × String))
    (pre post : List Char) (cs : List (List Char))
    (hpre : lbrace ∉ pre) (hcs : cs ≠ [])
    (helem : ∀ c ∈ cs, c ≠ [] ∧
      ∀ ch ∈ c, ch ≠ rbrace ∧ ch ≠ pipeChar ∧ isJsWs ch = false) :
    resolveTemplateChars vars
        (pre ++ lbrace :: lbrace :: (joinPipe cs ++ rbrace :: rbrace :: post))
        = pre ++ (firstCandidateValue vars cs ++ resolveTemplateChars vars post) ∧
      (∀ (k v : String) (hvars : List (String × String)), jsTrimS k ≠ "" →
        buildHeadersFromDraft [(k, v)] hvars
          = [(jsTrimS k, resolveHeaderTemplate v hvars)]) ∧
      (∀ (btoa : String → Option String) (hvars : List (String × String))
        (sv gv : List (String × Json)) (name : String) (scheme : Json) (N raw : String),
        jgetStr scheme "type" = some "apiKey" → jgetStr scheme "name" = some N →
        N ≠ "" → jgetStr scheme "in" = some "header" →
        jgetStr (storedSecurityValue sv gv name) "value" = some raw →
        resolveHeaderTemplate raw hvars ≠ "" →
        rlookup (buildSecurityPayload btoa [(name, scheme)] sv gv hvars).headers N
          = some (resolveHeaderTemplate raw hvars)) ∧
      (∀ (st : SendState) (p : String → Except String Json) (strf : Json → String)
        (btoa : String → Option String) (api : ApiListItem) (m : String),
        st.selectedApi = some api → isJsonContentType st.requestContentType = true →
        jsTrimS (resolveHeaderTemplate st.requestBody st.headerVariables) ≠ "" →
        p (resolveHeaderTemplate st.requestBody st.headerVariables) = .error m →
        sendRequestBuild st p strf btoa
          = .bodyError (resolveHeaderTemplate st.requestBody st.headerVariables)
              ("Invalid JSON: " ++ m)) := by
  refine ⟨?_, ?_, ?_, ?_⟩
  · obtain ⟨c, cs2, rfl⟩ : ∃ c cs2, cs = c :: cs2 := by
      cases cs with
      | nil => exact absurd rfl hcs
      | cons c cs2 => exact ⟨c, cs2, rfl⟩
    have hne : joinPipe (c :: cs2) ≠ [] :=
      joinPipe_ne_nil c cs2 (helem c (by simp)).1
    have hnorb : ∀ ch ∈ joinPipe (c :: cs2), ch ≠ rbrace :=
      joinPipe_no_rbrace (c :: cs2) (fun d hd ch hch => ((helem d hd).2 ch hch).1)
    unfold resolveTemplateChars
    rw [resolveTplF_decompose vars pre _ (joinPipe (c :: cs2)) post le_rfl hne hnorb hpre]
    rw [tplValue_joinPipe vars (c :: cs2) (by simp) helem]
    rfl
  · intro k v hvars hk
    simp [buildHeadersFromDraft, hk, rset]
  · intro btoa hvars sv gv name scheme N raw htype hN hNne hin hraw hne
    have hval : securityValueField (storedSecurityValue sv gv name) "value" hvars
        = resolveHeaderTemplate raw hvars := by
      simp [securityValueField, hraw]
    rw [buildSecurityPayload_finalize]
    simp only [List.foldl_cons, List.foldl_nil]
    rw [applySecurityScheme_apiKey_header btoa hvars sv gv _ name scheme N htype hN
      hNne (hval ▸ hne) hin]
    simp [rlookup, hval]
  · intro st p strf btoa api m hapi hct htrim hparse
    simp [sendRequestBuild, hapi, hct, htrim, hparse]

/-- C10 witness: the theorem applied to the concrete template
`Bearer \x7b\x7bprimary|fallback\x7d\x7d` with only the second variable
populated, plus the three concrete call sites. -/
theorem resolveHeaderTemplate_first_match_witness :
    resolveTemplateChars [("fallback", "tok")]
        ("Bearer ".data ++ lbrace :: lbrace ::
          (joinPipe ["primary".data, "fallback".data] ++ rbrace :: rbrace :: []))
        = "Bearer ".data ++
            (firstCandidateValue [("fallback", "tok")] ["primary".data, "fallback".data] ++
              resolveTemplateChars [("fallback", "tok")] []) ∧
      buildHeadersFromDraft [("X-Auth", "v")] [("a", "b")]
        = [(jsTrimS "X-Auth", resolveHeaderTemplate "v" [("a", "b")])] ∧
      rlookup (buildSecurityPayload (fun _ => none)
          [("k", .obj [("type", .str "apiKey"), ("name", .str "X-Key"),
            ("in", .str "header")])]
          [("k", .obj [("value", .str "secret")])] [] []).headers "X-Key"
        = some (resolveHeaderTemplate "secret" []) := by
  have h := resolveHeaderTemplate_first_match [("fallback", "tok")] "Bearer ".data []
    ["primary".data, "fallback".data] (by decide) (by decide) (by decide)
  exact ⟨h.1, h.2.1 "X-Auth" "v" [("a", "b")] (by decide),
    h.2.2.1 (fun _ => none) [] [("k", .obj [("value", .str "secret")])] [] "k"
      (.obj [("type", .str "apiKey"), ("name", .str "X-Key"), ("in", .str "header")])
      "X-Key" "secret" rfl rfl (by decide) rfl rfl (by decide)⟩

end OpenapiClient
